import Mathlib

/-! # collect-band-log: time-indexed sample store, group aggregation and report rendering

A shallow embedding of `collect-band-log.go`.

Conventions of the embedding

* Go strings are lists of characters (`List Char`); every separator the program
  uses is ASCII, so splitting on characters and splitting on bytes agree, and
  so does the lexicographic order.
* A Go `map` is an association list with one entry per key; the order of the
  list stands for the (unspecified) iteration order of the map.
* `float64` values are elements of an arbitrary type `R`; the operations the
  program applies to them (`+`, `strconv.ParseFloat`, `%.2f`) are fields of a
  parameter record `Lib R`, as are `strconv.ParseInt` and `time.Time.Format`,
  so no law of arithmetic is assumed of them. A score, the `float64` of an
  `int64`, is an integer and is kept as such, rounded as the conversion rounds.
* The lock of `Store` and the output sink are not part of the embedding: the
  report functions return the lines they write, the directory response is an
  argument.
* The methods are embedded on values. The aggregation of `Store.PrintGroupData`,
  which updates items through pointers, is embedded a second time on a heap
  (namespace `Ptr`) and shown to refine the embedding on values.
-/

set_option autoImplicit false

namespace CollectBandLog

/-! ## Go maps -/

/-- Lookup `m[k]` with the comma-ok result as an `Option`. -/
def GoMap.get? {K V : Type} [DecidableEq K] : List (K × V) → K → Option V
  | [], _ => none
  | (k', v) :: m, k => if k' = k then some v else GoMap.get? m k

/-- Assignment `m[k] = v`: overwrite the entry of `k`, or add one. -/
def GoMap.set {K V : Type} [DecidableEq K] : List (K × V) → K → V → List (K × V)
  | [], k, v => [(k, v)]
  | (k', v') :: m, k, v => if k' = k then (k, v) :: m else (k', v') :: GoMap.set m k v

/-- The keys of a map, in iteration order. -/
def GoMap.keys {K V : Type} (m : List (K × V)) : List K := m.map Prod.fst

/-! ## The packages `strings`, `fmt` and `sort` -/

/-- Scanner of `strings.Split`: `skip` counts the characters of a separator
that was just matched and still has to be passed over, `cur` is the piece
being built, reversed. -/
def strings.Split.go (sep : List Char) : List Char → Nat → List Char → List (List Char)
  | [], _, cur => [cur.reverse]
  | _ :: s, skip + 1, cur => strings.Split.go sep s skip cur
  | c :: s, 0, cur =>
    if sep.isPrefixOf (c :: s) then cur.reverse :: strings.Split.go sep s (sep.length - 1) []
    else strings.Split.go sep s 0 (c :: cur)

/-- Go `strings.Split(s, sep)` for a non-empty separator: the pieces between
the non-overlapping occurrences of `sep`, found left to right. -/
def strings.Split (s sep : List Char) : List (List Char) := strings.Split.go sep s 0 []

/-- Go `strings.Trim(s, cutset)`: drop leading and trailing characters that
occur in `cutset`. -/
def strings.Trim (s cutset : List Char) : List Char :=
  ((s.dropWhile (fun c => cutset.contains c)).reverse.dropWhile (fun c => cutset.contains c)).reverse

/-- Go `strings.Join(a, sep)`. -/
def strings.Join : List (List Char) → List Char → List Char
  | [], _ => []
  | [x], _ => x
  | x :: y :: rest, sep => x ++ sep ++ strings.Join (y :: rest) sep

/-- Go `fmt.Sprintf("%-Ns", s)`: `s` padded on the right with spaces to at
least `width` characters. -/
def fmt.SprintfLeft (width : Nat) (s : List Char) : List Char :=
  s ++ List.replicate (width - s.length) ' '

/-- Go `sort.Strings`: ascending lexicographic order. -/
def sort.Strings (a : List (List Char)) : List (List Char) :=
  a.insertionSort (fun x y => x ≤ y)

/-! ## Data model -/

/-- Modelled from the spec: `time.Time` is a type of the Go standard library;
the spec (section 3) gives the timestamp second precision, so a value is its
number of seconds since the Unix epoch, an `int64`, which may be negative. -/
structure Time where
  /-- Result of `t.Unix()`. -/
  Unix : Int
  deriving DecidableEq

/-- The constants `BandDataFromApi` and `BandDataFromSync`. -/
def BandDataFromApi : Int := 0
def BandDataFromSync : Int := 1

/-- The map `BandDataFromStrMap`. -/
def BandDataFromStrMap : List (List Char × Int) :=
  [("0".toList, BandDataFromApi), ("1".toList, BandDataFromSync)]

/-- The struct `BandItem`; `R` stands for `float64`. -/
structure BandItem (R : Type) where
  Ip : List Char
  PopId : Int
  Server : Int
  BandwidthIn : R
  BandwidthOut : R
  DataFrom : Int
  Time : Time
  deriving DecidableEq

/-- The standard-library operations on numbers and times that the program
calls, taken as parameters.

* `ParseInt s` is `strconv.ParseInt(s, 10, 64)`: the value, and whether the
  error is non-nil;
* `ParseFloat s` is `strconv.ParseFloat(s, 64)`, likewise;
* `add` is `+` on `float64`;
* `Sprintf2f x` is `fmt.Sprintf("%.2f", x)`;
* `Format t` is `t.Format("01/02T15:04:05")`. -/
structure Lib (R : Type) where
  ParseInt : List Char → Int × Bool
  ParseFloat : List Char → R × Bool
  add : R → R → R
  Sprintf2f : R → List Char
  Format : Time → List Char

/-! ## The skiplist -/

/-- The struct `skiplist.Node`: a score and the data stored under it. -/
structure skiplist.Node (R : Type) where
  Score : Int
  Data : BandItem R
  deriving DecidableEq

/-- Modelled from the spec: the type `skiplist.Skiplist` belongs to the imported
package `github.com/iyidan/algorithms/dst/skiplist`, whose source is not part
of the repository. A skiplist is the sequence of its nodes in list order
(section 3, a Series: "ordered ascending by timestamp, ties broken by insertion
order"). -/
abbrev skiplist.Skiplist (R : Type) := List (skiplist.Node R)

/-- The variable `compareFunc`. -/
def compareFunc {R : Type} (_a _b : BandItem R) : Int := 0

/-- Modelled from the spec: `skiplist.New(compare)` of the imported package is
the empty sequence (section 3, a Series is "created lazily on first insert"). -/
def skiplist.New {R : Type} (_compare : BandItem R → BandItem R → Int) : skiplist.Skiplist R := []

/-- Modelled from the spec: `sl.Add(data, score)` of the imported package
(section 4.1, "insertion position is determined by timestamp order; equal
timestamps preserve relative insertion order ... never discarded"): the new
node goes after every node whose score is not larger. -/
def skiplist.Skiplist.Add {R : Type} : skiplist.Skiplist R → BandItem R → Int → skiplist.Skiplist R
  | [], data, score => [⟨score, data⟩]
  | n :: sl, data, score =>
    if n.Score ≤ score then n :: skiplist.Skiplist.Add sl data score
    else ⟨score, data⟩ :: n :: sl

/-- Modelled from the spec: `sl.RangeByScore(min, max)` of the imported package
(section 8, "exactly the subset with lo ≤ timestamp ≤ hi, inclusive on both
ends"), in list order. -/
def skiplist.Skiplist.RangeByScore {R : Type} (sl : skiplist.Skiplist R) (min max : Int) :
    List (skiplist.Node R) :=
  sl.filter (fun n => decide (min ≤ n.Score ∧ n.Score ≤ max))

/-- The constant `math.MaxFloat64`, `(2 - 2^(-52)) * 2^1023`, which is the
integer `2^1024 - 2^971`. -/
def math.MaxFloat64 : Int :=
  179769313486231570814527423731704356798070567525844996598917476803157260780028538760589558632766878171540458953514382464234321326889464182768467546703537516986049910576551282076245490090389328944075868508455133942304583236903222948165808559332123348274797826204144723168738177180919299881250404026184124858368

/-- The multiple of `2 ^ e` nearest to `a`, the even multiple on a tie: the
rounding of `float64` at a binary exponent `e`. -/
def float64.roundAt (e a : Nat) : Nat :=
  let q := a / 2 ^ e
  let r := a % 2 ^ e
  (if 2 ^ e < 2 * r ∨ (2 * r = 2 ^ e ∧ q % 2 = 1) then q + 1 else q) * 2 ^ e

/-- Search for the exponent at which `a` has at most 53 significant bits,
followed by the rounding there. -/
def float64.ofNat.go : Nat → Nat → Nat → Nat
  | 0, e, a => float64.roundAt e a
  | fuel + 1, e, a =>
    if a < 2 ^ (53 + e) then float64.roundAt e a else float64.ofNat.go fuel (e + 1) a

/-- The conversion `float64(x)` of an `int64` value `x`: the nearest number
with 53 significant bits, which for an `int64` is an integer again. The search
covers the exponents 0 to 11, enough for every absolute value below `2 ^ 64`. -/
def float64.ofInt64 (x : Int) : Int :=
  if x < 0 then -((float64.ofNat.go 11 0 x.natAbs : Nat) : Int)
  else ((float64.ofNat.go 11 0 x.natAbs : Nat) : Int)

/-- The score `float64(item.Time.Unix())` under which `Store.Add` stores an
item. -/
def scoreOf (t : Time) : Int := float64.ofInt64 t.Unix

/-! ## The store -/

/-- The struct `Store`: `data` maps an address to its skiplist. -/
structure Store (R : Type) where
  data : List (List Char × skiplist.Skiplist R)

/-- The variable `store` at start-up. -/
def Store.empty {R : Type} : Store R := ⟨[]⟩

/-- The method `Store.Add`. -/
def Store.Add {R : Type} (s : Store R) (item : BandItem R) : Store R :=
  match GoMap.get? s.data item.Ip with
  | some sl => ⟨GoMap.set s.data item.Ip (sl.Add item (scoreOf item.Time))⟩
  | none => ⟨GoMap.set s.data item.Ip ((skiplist.New compareFunc).Add item (scoreOf item.Time))⟩

/-! ## Ingestion -/

/-- The item that the loop of `handleBandReportOne` builds for the tuple `v`;
`none` when the loop passes on to the next tuple (`continue`). The errors of
`ParseInt` and `ParseFloat` are assigned to `_`. -/
def handleBandReportOne.item {R : Type} (L : Lib R) (logTime : Time) (v : List Char) :
    Option (BandItem R) :=
  match strings.Split v " ".toList with
  | [av0, av1, av2, av3, av4, av5] =>
    some
      { Ip := av0
        PopId := (L.ParseInt av1).1
        Server := if av2 = "1".toList then 1 else 0
        BandwidthIn := (L.ParseFloat av3).1
        BandwidthOut := (L.ParseFloat av4).1
        DataFrom := (GoMap.get? BandDataFromStrMap av5).getD 0
        Time := logTime }
  | _ => none

/-- The body of the loop of `handleBandReportOne` for one tuple `v`: the item
built for it, if any, is added to the store. -/
def handleBandReportOne.tuple {R : Type} (L : Lib R) (logTime : Time) (store : Store R)
    (v : List Char) : Store R :=
  match handleBandReportOne.item L logTime v with
  | some item => store.Add item
  | none => store

/-- The function `handleBandReportOne`, as a transformer of the global
`store`. -/
def handleBandReportOne {R : Type} (L : Lib R) (store : Store R) (logTime : Time)
    (line : List Char) : Store R :=
  match strings.Split line "[\x7b".toList with
  | [_, a1] =>
    let aa := strings.Split (strings.Trim a1 "\x7d]".toList) "\x7d \x7b".toList
    if aa.length = 0 then store
    else aa.foldl (handleBandReportOne.tuple L logTime) store
  | _ => store

/-! ## Rendering -/

/-- The constants `TypeIn`, `TypeOut`, `TypeAll`, `PFCsv` and `PFSpace`. -/
def TypeIn : List Char := "in".toList
def TypeOut : List Char := "out".toList
def TypeAll : List Char := "all".toList
def PFCsv : List Char := "csv".toList
def PFSpace : List Char := "space".toList

/-- The value field of one node in `genBandDataStringByValues` (the body of
its second loop). -/
def genBandDataStringByValues.field {R : Type} (L : Lib R) (pType : List Char)
    (value : skiplist.Node R) : List Char :=
  let item := value.Data
  if pType = TypeIn then L.Sprintf2f item.BandwidthIn
  else if pType = TypeOut then L.Sprintf2f item.BandwidthOut
  else L.Sprintf2f item.BandwidthIn ++ "|".toList ++ L.Sprintf2f item.BandwidthOut

/-- The function `genBandDataStringByValues`; the format `"%-Ns"` passed as
`ipFormat` is given by its width `N`. -/
def genBandDataStringByValues {R : Type} (L : Lib R) (pf : List Char) (ipFormat : Nat)
    (ip pType : List Char) (values : List (skiplist.Node R)) : List Char :=
  let s : List (List Char) := if pf = PFCsv then [ip] else [fmt.SprintfLeft ipFormat ip]
  let s : List (List Char) :=
    match values with
    | [] => s
    | v0 :: rest =>
      let startT := L.Format v0.Data.Time
      let endT := L.Format ((v0 :: rest).getLast (List.cons_ne_nil v0 rest)).Data.Time
      s ++ [startT ++ "-".toList ++ endT]
  let s : List (List Char) :=
    values.foldl (fun s value => s ++ [genBandDataStringByValues.field L pType value]) s
  if pf = PFCsv then strings.Join s ",".toList else strings.Join s " ".toList

/-- The function `genBandDataString`. -/
def genBandDataString {R : Type} (L : Lib R) (pf : List Char) (ipFormat : Nat) (ip : List Char)
    (sl : skiplist.Skiplist R) (min max : Int) (pType : List Char) : List Char :=
  let values := sl.RangeByScore min max
  genBandDataStringByValues L pf ipFormat ip pType values

/-! ## Reports

Each report function returns the lines it writes: the header, then one line
per `Fprintln`. -/

/-- The first loop of `Store.PrintIPData`: the keys collected in `ips` and the
map `pData`. -/
def Store.PrintIPData.collect {R : Type} (L : Lib R) (s : Store R) (pType pf : List Char) :
    List (List Char) × List (List Char × List Char) :=
  s.data.foldl
    (fun acc e =>
      (acc.1 ++ [e.1],
       GoMap.set acc.2 e.1 (genBandDataString L pf 15 e.1 e.2 0 math.MaxFloat64 pType)))
    ([], [])

/-- The method `Store.PrintIPData`. -/
def Store.PrintIPData {R : Type} (L : Lib R) (s : Store R) (pType pf : List Char) :
    List (List Char) :=
  let c := Store.PrintIPData.collect L s pType pf
  ("-------- ip band data(".toList ++ pType ++ ") --------".toList) ::
    (sort.Strings c.1).map (fun ip => (GoMap.get? c.2 ip).getD [])

/-- The struct `APIBaseRes`. -/
structure APIBaseRes where
  Code : Int
  Message : List Char
  deriving DecidableEq

/-- An element of `APIIdcRes.Data.Items`; `Snmp_ip` is `Monitor.Snmp_ip`. -/
structure APIIdcItem where
  Id : Int
  Name : List Char
  Chname : List Char
  Snmp_ip : List Char
  deriving DecidableEq

/-- The struct `APIIdcRes`. -/
structure APIIdcRes where
  base : APIBaseRes
  Items : List APIIdcItem
  deriving DecidableEq

/-- The row of one idc in `Store.PrintIdcData` (the body of its loop): the
name and the text stored under it. -/
def Store.PrintIdcData.row {R : Type} (L : Lib R) (s : Store R) (pType pf : List Char)
    (idc : APIIdcItem) : List Char × List Char :=
  let name := idc.Name ++ "(".toList ++ idc.Snmp_ip ++ ")".toList
  if idc.Snmp_ip = [] then
    if pf = PFCsv then (name, name ++ ",nosnmpip".toList)
    else (name, fmt.SprintfLeft 25 name ++ " nosnmpip".toList)
  else
    match GoMap.get? s.data idc.Snmp_ip with
    | none =>
      if pf = PFCsv then (name, name ++ ",nobanddata".toList)
      else (name, fmt.SprintfLeft 25 name ++ " nobanddata".toList)
    | some sl => (name, genBandDataString L pf 25 name sl 0 math.MaxFloat64 pType)

/-- The loop of `Store.PrintIdcData`: `idcNames` and `idcsBandData`. -/
def Store.PrintIdcData.collect {R : Type} (L : Lib R) (s : Store R) (pType pf : List Char)
    (items : List APIIdcItem) : List (List Char) × List (List Char × List Char) :=
  items.foldl
    (fun acc idc =>
      let r := Store.PrintIdcData.row L s pType pf idc
      (acc.1 ++ [r.1], GoMap.set acc.2 r.1 r.2))
    ([], [])

/-- The method `Store.PrintIdcData`. The directory response is the argument
`idcs` (`none` when the request or its decoding fails); the result is `none`
when the method panics. -/
def Store.PrintIdcData {R : Type} (L : Lib R) (s : Store R) (idcs : Option APIIdcRes)
    (pType pf : List Char) : Option (List (List Char)) :=
  match idcs with
  | none => none
  | some idcs =>
    if idcs.base.Code ≠ 200 then none
    else if idcs.Items.length = 0 then none
    else
      let c := Store.PrintIdcData.collect L s pType pf idcs.Items
      some (("-------- idc band data(".toList ++ pType ++ ") --------".toList) ::
        (sort.Strings c.1).map (fun name => (GoMap.get? c.2 name).getD []))

/-- An element of `APIGroupIpsRes.Data`. -/
structure APIGroup where
  Idc_name : List Char
  Name : List Char
  Rips : List (List Char)
  Vips : List (List Char)
  deriving DecidableEq

/-- The struct `APIGroupIpsRes`. -/
structure APIGroupIpsRes where
  base : APIBaseRes
  Data : List APIGroup
  deriving DecidableEq

/-- The state of the aggregation in `Store.PrintGroupData`: the slice
`sumTimePoints` and the map `sumValues`. -/
structure SumState (R : Type) where
  sumTimePoints : List Time
  sumValues : List (Time × skiplist.Node R)

/-- The body of the loop over `values` in `Store.PrintGroupData`: a timestamp
seen for the first time gets a node holding a copy of the item, a timestamp
seen before has the item's rates added to its node. -/
def Store.PrintGroupData.sumOne {R : Type} (L : Lib R) (st : SumState R)
    (value : skiplist.Node R) : SumState R :=
  let item := value.Data
  match GoMap.get? st.sumValues item.Time with
  | none =>
    { sumTimePoints := st.sumTimePoints ++ [item.Time]
      sumValues := GoMap.set st.sumValues item.Time ⟨value.Score, item⟩ }
  | some n =>
    let b := n.Data
    let b := { b with BandwidthIn := L.add b.BandwidthIn item.BandwidthIn }
    let b := { b with BandwidthOut := L.add b.BandwidthOut item.BandwidthOut }
    { sumTimePoints := st.sumTimePoints
      sumValues := GoMap.set st.sumValues item.Time { n with Data := b } }

/-- The body of the loop over `group.Rips`: an address without a skiplist is
passed over, the full-range nodes of the others are added up. -/
def Store.PrintGroupData.sumRip {R : Type} (L : Lib R) (s : Store R) (st : SumState R)
    (rip : List Char) : SumState R :=
  match GoMap.get? s.data rip with
  | none => st
  | some sl => (sl.RangeByScore 0 math.MaxFloat64).foldl (Store.PrintGroupData.sumOne L) st

/-- The slice `values` that `Store.PrintGroupData` builds for a group with the
members `rips`: the aggregated series. -/
def Store.PrintGroupData.values {R : Type} (L : Lib R) (s : Store R) (rips : List (List Char)) :
    List (skiplist.Node R) :=
  let st := rips.foldl (Store.PrintGroupData.sumRip L s) ⟨[], []⟩
  st.sumTimePoints.filterMap (fun t => GoMap.get? st.sumValues t)

/-- The row of one group in `Store.PrintGroupData` (the body of its outer
loop): the name and the text stored under it. -/
def Store.PrintGroupData.row {R : Type} (L : Lib R) (s : Store R) (pType pf : List Char)
    (group : APIGroup) : List Char × List Char :=
  let name := group.Name ++ "(".toList ++ group.Idc_name ++ ")".toList
  if group.Rips.length = 0 then
    if pf = PFCsv then (name, name ++ ",norip".toList)
    else (name, fmt.SprintfLeft 20 name ++ " norip".toList)
  else
    (name, genBandDataStringByValues L pf 20 name pType
      (Store.PrintGroupData.values L s group.Rips))

/-- The outer loop of `Store.PrintGroupData`: `groupNames` and
`groupsBandData`. -/
def Store.PrintGroupData.collect {R : Type} (L : Lib R) (s : Store R) (pType pf : List Char)
    (groups : List APIGroup) : List (List Char) × List (List Char × List Char) :=
  groups.foldl
    (fun acc group =>
      let r := Store.PrintGroupData.row L s pType pf group
      (acc.1 ++ [r.1], GoMap.set acc.2 r.1 r.2))
    ([], [])

/-- The method `Store.PrintGroupData`. The directory response is the argument
`groups` (`none` when the request or its decoding fails); the result is `none`
when the method panics. -/
def Store.PrintGroupData {R : Type} (L : Lib R) (s : Store R) (groups : Option APIGroupIpsRes)
    (pType pf : List Char) : Option (List (List Char)) :=
  match groups with
  | none => none
  | some groups =>
    if groups.base.Code ≠ 200 then none
    else if groups.Data.length = 0 then none
    else
      let c := Store.PrintGroupData.collect L s pType pf groups.Data
      some (("-------- group band data(".toList ++ pType ++ ") --------".toList) ::
        (sort.Strings c.1).map (fun name => (GoMap.get? c.2 name).getD []))

/-! ## The aggregation with pointers

`Store.PrintGroupData` works on pointers: a node of a skiplist holds a
`*BandItem`, the loop copies the first item of a timestamp (`tmp := *item`) and
adds the rates of the following ones through the pointer to that copy. Here the
items live in a heap, a pointer is an index into it, and the loop passes the
heap along. Dereferencing a pointer outside the heap is a panic (`none`). -/

/-- The heap of `BandItem` values; `&tmp` of a new variable is the next free
index. -/
abbrev Ptr.Heap (R : Type) := List (BandItem R)

/-- The struct `skiplist.Node` with `Data` a `*BandItem`. -/
structure Ptr.Node where
  Score : Int
  Data : Nat
  deriving DecidableEq

/-- The struct `Store` with skiplists of pointer nodes. -/
structure Ptr.Store where
  data : List (List Char × List Ptr.Node)

/-- The state of the aggregation: the heap, the slice `sumTimePoints` and the
map `sumValues`. -/
structure Ptr.SumState (R : Type) where
  heap : Ptr.Heap R
  sumTimePoints : List Time
  sumValues : List (Time × Ptr.Node)

/-- The body of the loop over `values` in `Store.PrintGroupData`, on pointers.
For a timestamp not yet in `sumValues` the item is copied to a new cell and the
map gets a node pointing to the copy; otherwise `b` is the pointer of the node
found and the two assignments `b.BandwidthIn += item.BandwidthIn` and
`b.BandwidthOut += item.BandwidthOut` are carried out in the heap, one after
the other. -/
def Ptr.sumOne {R : Type} (L : Lib R) (st : Ptr.SumState R) (value : Ptr.Node) :
    Option (Ptr.SumState R) :=
  match st.heap[value.Data]? with
  | none => none
  | some item =>
    match GoMap.get? st.sumValues item.Time with
    | none =>
      some
        { heap := st.heap ++ [item]
          sumTimePoints := st.sumTimePoints ++ [item.Time]
          sumValues := GoMap.set st.sumValues item.Time ⟨value.Score, st.heap.length⟩ }
    | some n =>
      let b := n.Data
      match st.heap[b]?, st.heap[value.Data]? with
      | some vb, some vi =>
        let heap1 := st.heap.set b { vb with BandwidthIn := L.add vb.BandwidthIn vi.BandwidthIn }
        match heap1[b]?, heap1[value.Data]? with
        | some vb1, some vi1 =>
          some
            { heap :=
                heap1.set b { vb1 with BandwidthOut := L.add vb1.BandwidthOut vi1.BandwidthOut }
              sumTimePoints := st.sumTimePoints
              sumValues := st.sumValues }
        | _, _ => none
      | _, _ => none

/-- Pointer version of `sl.RangeByScore(min, max)`. -/
def Ptr.RangeByScore (sl : List Ptr.Node) (min max : Int) : List Ptr.Node :=
  sl.filter (fun n => decide (min ≤ n.Score ∧ n.Score ≤ max))

/-- Running a loop body over a list, stopping at a panic. -/
def Ptr.loop {σ α : Type} (body : σ → α → Option σ) : σ → List α → Option σ
  | st, [] => some st
  | st, a :: l =>
    match body st a with
    | none => none
    | some st' => Ptr.loop body st' l

/-- The body of the loop over `group.Rips`, on pointers. -/
def Ptr.sumRip {R : Type} (L : Lib R) (s : Ptr.Store) (st : Ptr.SumState R) (rip : List Char) :
    Option (Ptr.SumState R) :=
  match GoMap.get? s.data rip with
  | none => some st
  | some sl => Ptr.loop (Ptr.sumOne L) st (Ptr.RangeByScore sl 0 math.MaxFloat64)

/-- The nodes behind a list of pointer nodes, read from the heap. -/
def Ptr.load {R : Type} (heap : Ptr.Heap R) : List Ptr.Node → Option (List (skiplist.Node R))
  | [] => some []
  | n :: l =>
    match heap[n.Data]?, Ptr.load heap l with
    | some d, some l' => some (⟨n.Score, d⟩ :: l')
    | _, _ => none

/-- The function `genBandDataStringByValues` on pointer nodes: it reads the
items of the nodes from the heap. -/
def Ptr.genBandDataStringByValues {R : Type} (L : Lib R) (heap : Ptr.Heap R) (pf : List Char)
    (ipFormat : Nat) (ip pType : List Char) (values : List Ptr.Node) : Option (List Char) :=
  match Ptr.load heap values with
  | none => none
  | some vs => some (CollectBandLog.genBandDataStringByValues L pf ipFormat ip pType vs)

/-- The body of the outer loop of `Store.PrintGroupData`, on pointers: the
heap after the group, the name and the text stored under it. -/
def Ptr.row {R : Type} (L : Lib R) (s : Ptr.Store) (pType pf : List Char) (heap : Ptr.Heap R)
    (group : APIGroup) : Option (Ptr.Heap R × (List Char × List Char)) :=
  let name := group.Name ++ "(".toList ++ group.Idc_name ++ ")".toList
  if group.Rips.length = 0 then
    if pf = PFCsv then some (heap, (name, name ++ ",norip".toList))
    else some (heap, (name, fmt.SprintfLeft 20 name ++ " norip".toList))
  else
    match Ptr.loop (Ptr.sumRip L s) ⟨heap, [], []⟩ group.Rips with
    | none => none
    | some st =>
      let values := st.sumTimePoints.filterMap (fun t => GoMap.get? st.sumValues t)
      match Ptr.genBandDataStringByValues L st.heap pf 20 name pType values with
      | none => none
      | some line => some (st.heap, (name, line))

/-- The state of the outer loop of `Store.PrintGroupData`: the heap,
`groupNames` and `groupsBandData`. -/
structure Ptr.Collected (R : Type) where
  heap : Ptr.Heap R
  names : List (List Char)
  rows : List (List Char × List Char)

/-- The outer loop of `Store.PrintGroupData`, on pointers. -/
def Ptr.collect {R : Type} (L : Lib R) (s : Ptr.Store) (pType pf : List Char) :
    Ptr.Collected R → List APIGroup → Option (Ptr.Collected R) :=
  Ptr.loop (fun acc group =>
    match Ptr.row L s pType pf acc.heap group with
    | none => none
    | some r => some ⟨r.1, acc.names ++ [r.2.1], GoMap.set acc.rows r.2.1 r.2.2⟩)

/-- The method `Store.PrintGroupData` on pointers: the heap it leaves behind
and the lines it writes; `none` when it panics. -/
def Ptr.PrintGroupData {R : Type} (L : Lib R) (s : Ptr.Store) (heap : Ptr.Heap R)
    (groups : Option APIGroupIpsRes) (pType pf : List Char) :
    Option (Ptr.Heap R × List (List Char)) :=
  match groups with
  | none => none
  | some groups =>
    if groups.base.Code ≠ 200 then none
    else if groups.Data.length = 0 then none
    else
      match Ptr.collect L s pType pf ⟨heap, [], []⟩ groups.Data with
      | none => none
      | some c =>
        some (c.heap,
          ("-------- group band data(".toList ++ pType ++ ") --------".toList) ::
            (sort.Strings c.names).map (fun name => (GoMap.get? c.rows name).getD []))

/-- The store of values behind a store of pointers: every node with the item
its pointer refers to. -/
def Ptr.Store.deref {R : Type} (heap : Ptr.Heap R) (s : Ptr.Store) : CollectBandLog.Store R :=
  ⟨s.data.map (fun e => (e.1, e.2.filterMap (fun n => (heap[n.Data]?).map (fun d => ⟨n.Score, d⟩))))⟩

/-- Every pointer of the store refers to a cell of the heap. -/
def Ptr.Store.Valid {R : Type} (heap : Ptr.Heap R) (s : Ptr.Store) : Prop :=
  ∀ e ∈ s.data, ∀ n ∈ e.2, n.Data < heap.length

/-! ## A concrete instance of the library parameters

Used to evaluate the program on concrete inputs: rates are integers counting
hundredths, times are rendered in UTC. -/

/-- Value of a string of decimal digits, `none` if it is empty or has another
character. -/
def demo.digits? : List Char → Option Nat
  | [] => none
  | cs => cs.foldl
      (fun acc c =>
        match acc with
        | none => none
        | some n => if '0' ≤ c ∧ c ≤ '9' then some (10 * n + (c.toNat - 48)) else none)
      (some 0)

/-- Decimal integers with an optional sign, clamped to the 64-bit range as
`strconv.ParseInt` clamps them; the flag tells whether parsing failed. -/
def demo.ParseInt (s : List Char) : Int × Bool :=
  let body := match s with
    | '+' :: r => (false, r)
    | '-' :: r => (true, r)
    | r => (false, r)
  match demo.digits? body.2 with
  | none => (0, true)
  | some n =>
    if body.1 then (if n > 2 ^ 63 then (-(2 ^ 63 : Int), true) else (-(n : Int), false))
    else (if n ≥ 2 ^ 63 then ((2 ^ 63 : Int) - 1, true) else ((n : Int), false))

/-- Decimal numbers `ddd` or `ddd.ddd` with an optional minus sign, read as
hundredths (further decimals are dropped); the flag tells whether parsing
failed. -/
def demo.ParseFloat (s : List Char) : Int × Bool :=
  let body := match s with
    | '-' :: r => (true, r)
    | r => (false, r)
  let ip := body.2.takeWhile (fun c => c ≠ '.')
  let fp := (body.2.dropWhile (fun c => c ≠ '.')).drop 1
  let frac := (fp ++ ['0', '0']).take 2
  if body.2.contains '.' ∧ fp = [] then (0, true)
  else
    match demo.digits? ip, demo.digits? (if fp = [] then ['0'] else fp), demo.digits? frac with
    | some i, some _, some f =>
      let v : Int := ((100 * i + f : Nat) : Int)
      (if body.1 then -v else v, false)
    | _, _, _ => (0, true)

/-- Two decimal digits of a number below 100. -/
def demo.two (n : Nat) : List Char :=
  [Char.ofNat (48 + n / 10 % 10), Char.ofNat (48 + n % 10)]

/-- A count of hundredths rendered with two decimals. -/
def demo.Sprintf2f (x : Int) : List Char :=
  (if x < 0 then ['-'] else []) ++ (Nat.toDigits 10 (x.natAbs / 100)) ++ ['.'] ++
    demo.two (x.natAbs % 100)

/-- Month and day (UTC) of a number of days since the Unix epoch. -/
def demo.monthDay (days : Int) : Nat × Nat :=
  let z := days + 719468
  let doe := (z % 146097).toNat
  let yoe := (doe - doe / 1460 + doe / 36524 - doe / 146096) / 365
  let doy := doe - (365 * yoe + yoe / 4 - yoe / 100)
  let mp := (5 * doy + 2) / 153
  let d := doy - (153 * mp + 2) / 5 + 1
  let m := if mp < 10 then mp + 3 else mp - 9
  (m, d)

/-- The layout `01/02T15:04:05` in UTC. -/
def demo.Format (t : Time) : List Char :=
  let md := demo.monthDay (t.Unix / 86400)
  let sod := (t.Unix % 86400).toNat
  demo.two md.1 ++ ['/'] ++ demo.two md.2 ++ ['T'] ++ demo.two (sod / 3600) ++ [':'] ++
    demo.two (sod / 60 % 60) ++ [':'] ++ demo.two (sod % 60)

/-- The concrete instance. -/
def demo.lib : Lib Int where
  ParseInt := demo.ParseInt
  ParseFloat := demo.ParseFloat
  add := fun x y => x + y
  Sprintf2f := demo.Sprintf2f
  Format := demo.Format

/-! ## Notions used in the statements -/

/-- The series of address `a` in the store `s`: the nodes of its skiplist, none
if the address has no skiplist. -/
def Store.series {R : Type} (s : Store R) (a : List Char) : skiplist.Skiplist R :=
  (GoMap.get? s.data a).getD []

/-- The skiplist is ascending by score. -/
def skiplist.Skiplist.Ascending {R : Type} (sl : skiplist.Skiplist R) : Prop :=
  sl.Pairwise (fun x y => x.Score ≤ y.Score)

/-- Every node of the store is stored under the score of its time, as
`Store.Add` stores it. -/
def Store.ScoredByTime {R : Type} (s : Store R) : Prop :=
  ∀ e ∈ s.data, ∀ n ∈ e.2, n.Score = scoreOf n.Data.Time

/-- The skiplist obtained from the empty one by adding `items` in order, each
under the score of its time, as `Store.Add` does. -/
def addAll {R : Type} (sl : skiplist.Skiplist R) (items : List (BandItem R)) :
    skiplist.Skiplist R :=
  items.foldl (fun sl item => sl.Add item (scoreOf item.Time)) sl

/-- The samples read back for address `a` by a range query from `lo` to `hi`
after the calls `Store.Add` for `items`, in order, on the empty store. -/
def readBack {R : Type} (items : List (BandItem R)) (a : List Char) (lo hi : Int) :
    List (BandItem R) :=
  (((items.foldl Store.Add Store.empty).series a).RangeByScore lo hi).map (fun n => n.Data)

/-- The tuples of a log line, given the part `a1` of the line after its
opener: the pieces between the separators, the closing brackets trimmed. -/
def tuplesOf (a1 : List Char) : List (List Char) :=
  strings.Split (strings.Trim a1 "\x7d]".toList) "\x7d \x7b".toList

/-- The distinct elements of a list, each once, in the order of their first
occurrence. -/
def firstSeen {α : Type} [DecidableEq α] : List α → List α
  | [] => []
  | a :: l => a :: (firstSeen l).filter (fun b => decide (b ≠ a))

/-- The nodes that the aggregation of `Store.PrintGroupData` scans for the
members `rips`, in scan order: the full-range result of every member that has
a skiplist, members in the order listed. -/
def scanned {R : Type} (s : Store R) (rips : List (List Char)) : List (skiplist.Node R) :=
  rips.flatMap (fun rip =>
    match GoMap.get? s.data rip with
    | none => []
    | some sl => sl.RangeByScore 0 math.MaxFloat64)

/-- All nodes of the series of the members `rips`, whatever their score,
members in the order listed. -/
def memberNodes {R : Type} (s : Store R) (rips : List (List Char)) : List (skiplist.Node R) :=
  rips.flatMap (fun rip => s.series rip)

/-- Left-to-right sum of a non-empty list of rates; `none` for the empty list. -/
def sumRates {R : Type} (L : Lib R) : List R → Option R
  | [] => none
  | x :: xs => some (xs.foldl L.add x)

/-- The aggregate of the nodes of `xs` with timestamp `t`: the first of them,
with the rates of the others added in order. -/
def sumAt {R : Type} (L : Lib R) (xs : List (skiplist.Node R)) (t : Time) :
    Option (skiplist.Node R) :=
  match xs.filter (fun n => decide (n.Data.Time = t)) with
  | [] => none
  | f :: rest =>
    some ⟨f.Score,
      { f.Data with
        BandwidthIn := (rest.map (fun n => n.Data.BandwidthIn)).foldl L.add f.Data.BandwidthIn
        BandwidthOut := (rest.map (fun n => n.Data.BandwidthOut)).foldl L.add f.Data.BandwidthOut }⟩

/-- The range marker of a line: no field for an empty series, else the times
of its first and last node joined by `-`. -/
def rangeMarker {R : Type} (L : Lib R) : List (skiplist.Node R) → List (List Char)
  | [] => []
  | v0 :: rest =>
    [L.Format v0.Data.Time ++ "-".toList ++
      L.Format ((v0 :: rest).getLast (List.cons_ne_nil v0 rest)).Data.Time]

/-- The loop shared by the three reports: for every entry `e`, the key of its
row `f e` is appended to the list of names and the text of the row is stored
under that key. -/
def collectRows {E : Type} (f : E → List Char × List Char) (es : List E) :
    List (List Char) × List (List Char × List Char) :=
  es.foldl (fun acc e => (acc.1 ++ [(f e).1], GoMap.set acc.2 (f e).1 (f e).2)) ([], [])

/-- The lines written after the header: the names sorted, each replaced by the
text stored under it. -/
def rowsOf (c : List (List Char) × List (List Char × List Char)) : List (List Char) :=
  (sort.Strings c.1).map (fun name => (GoMap.get? c.2 name).getD [])

/-- The row function of `Store.PrintIPData`. -/
def Store.PrintIPData.row {R : Type} (L : Lib R) (pType pf : List Char)
    (e : List Char × skiplist.Skiplist R) : List Char × List Char :=
  (e.1, genBandDataString L pf 15 e.1 e.2 0 math.MaxFloat64 pType)

/-- The shape of a report: a header line, then one row per label collected,
the rows in ascending lexicographic order of their labels, each row beginning
with its label. -/
def SortedRows (collected lines : List (List Char)) : Prop :=
  ∃ (header : List Char) (labels rows : List (List Char)),
    lines = header :: rows ∧ labels.Sorted (fun x y => x ≤ y) ∧ labels.Perm collected ∧
      List.Forall₂ (fun label row => label <+: row) labels rows

/-- An entry of the pointer map `sumValues` represents an entry of the value
map: same timestamp and score, and the pointer refers to a cell beyond the
initial heap `heap0` that holds the item of the value entry. -/
def Ptr.Rep {R : Type} (heap0 heap : Ptr.Heap R) (p : Time × Ptr.Node)
    (q : Time × skiplist.Node R) : Prop :=
  p.1 = q.1 ∧ p.2.Score = q.2.Score ∧ heap0.length ≤ p.2.Data ∧ heap[p.2.Data]? = some q.2.Data

/-- The simulation relation between the pointer state and the value state of
the aggregation started on the heap `heap0`. -/
def Ptr.Sim {R : Type} (heap0 : Ptr.Heap R) (pst : Ptr.SumState R)
    (st : CollectBandLog.SumState R) : Prop :=
  (∃ extra, pst.heap = heap0 ++ extra) ∧ pst.sumTimePoints = st.sumTimePoints ∧
    List.Forall₂ (Ptr.Rep heap0 pst.heap) pst.sumValues st.sumValues ∧
    (pst.sumValues.map (fun p => p.2.Data)).Nodup

/-- The nodes behind the pointer nodes of a skiplist, as `Ptr.Store.deref`
reads them. -/
def Ptr.nodes {R : Type} (heap : Ptr.Heap R) (sl : List Ptr.Node) : List (skiplist.Node R) :=
  sl.filterMap (fun n => (heap[n.Data]?).map (fun d => ⟨n.Score, d⟩))

/-! ## Examples -/

/-- Example for C1 and C2: address `A` reports 10 in and 1 out, address `B`
20 in and 2 out, both at time 100; `B` reports again at time 101. -/
def exampleAB : Store Int :=
  ((Store.empty.Add ⟨"A".toList, 1, 0, 1000, 100, 0, ⟨100⟩⟩).Add
    ⟨"B".toList, 2, 0, 2000, 200, 0, ⟨100⟩⟩).Add ⟨"B".toList, 2, 0, 500, 700, 0, ⟨101⟩⟩

/-- Example for C9: the store of `exampleAB` with its entries in the other
order. -/
def exampleBA : Store Int := ⟨exampleAB.data.reverse⟩

/-- Example for C3: address `A` gets samples at the times 7, 5, 7 and 5 with
inRates 1, 2, 3 and 4, address `B` one sample in between. -/
def exampleInserts : List (BandItem Int) :=
  [⟨"A".toList, 0, 0, 1, 0, 0, ⟨7⟩⟩, ⟨"A".toList, 0, 0, 2, 0, 0, ⟨5⟩⟩,
    ⟨"B".toList, 0, 0, 9, 0, 0, ⟨6⟩⟩, ⟨"A".toList, 0, 0, 3, 0, 0, ⟨7⟩⟩,
    ⟨"A".toList, 0, 0, 4, 0, 0, ⟨5⟩⟩]

/-- Example for C3 beyond 53 bits: address `A` gets a sample at the Unix time
`2 ^ 53 + 1` and then one at `2 ^ 53`. -/
def exampleBeyond53 : List (BandItem Int) :=
  [⟨"A".toList, 0, 0, 1, 0, 0, ⟨9007199254740993⟩⟩,
    ⟨"A".toList, 0, 0, 2, 0, 0, ⟨9007199254740992⟩⟩]

/-- Example for C5: a log line with the tuple `36.42.77.1 677 0 1762.19 6077.3 0`,
a tuple of two fields and a third tuple. -/
def exampleLine : List Char :=
  "2020 band [\x7b36.42.77.1 677 0 1762.19 6077.3 0\x7d \x7bbad tuple\x7d \x7b1.2.3.4 7 1 10 20 1\x7d]".toList

/-- Example for C9: a directory response with two groups of the same name and
idc, the first with the member `A`, the second with the member `B`. -/
def exampleRepeatedLabel : APIGroupIpsRes :=
  ⟨⟨200, []⟩, [⟨"idc".toList, "g".toList, ["A".toList], []⟩,
    ⟨"idc".toList, "g".toList, ["B".toList], []⟩]⟩

/-- The response of `exampleRepeatedLabel` with its two entries swapped. -/
def exampleRepeatedLabelSwapped : APIGroupIpsRes :=
  ⟨⟨200, []⟩, [⟨"idc".toList, "g".toList, ["B".toList], []⟩,
    ⟨"idc".toList, "g".toList, ["A".toList], []⟩]⟩

/-- Example for C2 and C4: address `a` reports at the times -1 and 5, that is one
second before the Unix epoch and five seconds after it. -/
def exampleBeforeEpoch : Store Int :=
  (Store.empty.Add ⟨"a".toList, 0, 0, 100, 200, 0, ⟨-1⟩⟩).Add ⟨"a".toList, 0, 0, 300, 400, 0, ⟨5⟩⟩

/-- Example for C10: the store of `exampleAB` with its three items in a heap. -/
def Ptr.exampleHeap : Ptr.Heap Int :=
  [⟨"A".toList, 1, 0, 1000, 100, 0, ⟨100⟩⟩, ⟨"B".toList, 2, 0, 2000, 200, 0, ⟨100⟩⟩,
    ⟨"B".toList, 2, 0, 500, 700, 0, ⟨101⟩⟩]

def Ptr.exampleStore : Ptr.Store :=
  ⟨[("A".toList, [⟨100, 0⟩]), ("B".toList, [⟨100, 1⟩, ⟨101, 2⟩])]⟩

def Ptr.exampleGroups : APIGroupIpsRes :=
  ⟨⟨200, []⟩, [⟨"idc".toList, "g".toList, ["A".toList, "B".toList], []⟩,
    ⟨"idc".toList, "e".toList, [], []⟩]⟩

/-! # Theorems -/

/-- The literal of `math.MaxFloat64` is `2^1024 - 2^971`. -/
theorem math.MaxFloat64_eq : math.MaxFloat64 = 2 ^ 1024 - 2 ^ 971 := by
  unfold math.MaxFloat64
  norm_num

/-- At the exponent 0 nothing is rounded. -/
theorem float64.roundAt_zero (a : Nat) : float64.roundAt 0 a = a := by
  simp [float64.roundAt, Nat.mod_one]

/-- The conversion to `float64` is exact up to `2 ^ 53` in absolute value. -/
theorem float64.ofInt64_exact (x : Int) (h : x.natAbs ≤ 2 ^ 53) : float64.ofInt64 x = x := by
  have key : float64.ofNat.go 11 0 x.natAbs = x.natAbs := by
    rcases Nat.lt_or_eq_of_le h with hlt | heq
    · show (if x.natAbs < 2 ^ (53 + 0) then float64.roundAt 0 x.natAbs
        else float64.ofNat.go 10 (0 + 1) x.natAbs) = x.natAbs
      rw [if_pos hlt, float64.roundAt_zero]
    · rw [heq]; decide
  unfold float64.ofInt64
  rw [key]
  split <;> omega

/-! ## Go maps -/

theorem GoMap.get?_set_self {K V : Type} [DecidableEq K] (m : List (K × V)) (k : K) (v : V) :
    GoMap.get? (GoMap.set m k v) k = some v := by
  induction m with
  | nil => simp [GoMap.set, GoMap.get?]
  | cons e m ih =>
    obtain ⟨k', v'⟩ := e
    by_cases h : k' = k
    · simp [GoMap.set, GoMap.get?, h]
    · simp [GoMap.set, GoMap.get?, h, ih]

theorem GoMap.get?_set_ne {K V : Type} [DecidableEq K] (m : List (K × V)) (k k' : K) (v : V)
    (h : k ≠ k') : GoMap.get? (GoMap.set m k v) k' = GoMap.get? m k' := by
  induction m with
  | nil => simp [GoMap.set, GoMap.get?, h]
  | cons e m ih =>
    obtain ⟨k₀, v₀⟩ := e
    by_cases h₀ : k₀ = k
    · subst h₀
      simp [GoMap.set, GoMap.get?, h]
    · by_cases h₁ : k₀ = k'
      · subst h₁
        simp [GoMap.set, GoMap.get?, h₀]
      · simp [GoMap.set, GoMap.get?, h₀, h₁, ih]

theorem GoMap.mem_of_get? {K V : Type} [DecidableEq K] (m : List (K × V)) (k : K) (v : V)
    (h : GoMap.get? m k = some v) : (k, v) ∈ m := by
  induction m with
  | nil => simp [GoMap.get?] at h
  | cons e m ih =>
    obtain ⟨k', v'⟩ := e
    by_cases hk : k' = k
    · subst hk
      simp only [GoMap.get?, if_true, Option.some.injEq] at h
      subst h
      exact List.mem_cons_self _ _
    · simp only [GoMap.get?, hk, if_false] at h
      exact List.mem_cons_of_mem _ (ih h)

theorem GoMap.get?_eq_none_iff {K V : Type} [DecidableEq K] (m : List (K × V)) (k : K) :
    GoMap.get? m k = none ↔ k ∉ GoMap.keys m := by
  induction m with
  | nil => simp [GoMap.get?, GoMap.keys]
  | cons e m ih =>
    obtain ⟨k', v'⟩ := e
    by_cases hk : k' = k
    · subst hk
      simp [GoMap.get?, GoMap.keys]
    · have hk' : ¬ k = k' := fun h => hk h.symm
      simp only [GoMap.get?, hk, if_false, ih]
      simp [GoMap.keys, hk']

/-- In a map, which has one entry per key, lookup finds the entry of the key. -/
theorem GoMap.get?_of_mem {K V : Type} [DecidableEq K] (m : List (K × V)) (k : K) (v : V)
    (hn : (GoMap.keys m).Nodup) (h : (k, v) ∈ m) : GoMap.get? m k = some v := by
  induction m with
  | nil => cases h
  | cons e m ih =>
    obtain ⟨k', v'⟩ := e
    simp only [GoMap.keys, List.map_cons, List.nodup_cons] at hn
    rcases List.mem_cons.1 h with heq | hm
    · cases heq
      simp [GoMap.get?]
    · have hk : ¬ k' = k := by
        intro hk
        subst hk
        exact hn.1 (List.mem_map.2 ⟨(k', v), hm, rfl⟩)
      simp only [GoMap.get?, hk, if_false]
      exact ih hn.2 hm

/-- Lookup does not depend on the iteration order of a map. -/
theorem GoMap.get?_perm {K V : Type} [DecidableEq K] (m m' : List (K × V)) (k : K)
    (hn : (GoMap.keys m).Nodup) (hp : m.Perm m') : GoMap.get? m k = GoMap.get? m' k := by
  have hn' : (GoMap.keys m').Nodup := (hp.map Prod.fst).nodup_iff.1 hn
  cases h : GoMap.get? m k with
  | none =>
    rw [GoMap.get?_eq_none_iff] at h
    symm
    rw [GoMap.get?_eq_none_iff]
    intro hk
    exact h ((hp.map Prod.fst).mem_iff.2 hk)
  | some v =>
    symm
    exact GoMap.get?_of_mem m' k v hn' (hp.mem_iff.1 (GoMap.mem_of_get? m k v h))

theorem GoMap.set_of_get?_none {K V : Type} [DecidableEq K] (m : List (K × V)) (k : K) (v : V)
    (h : GoMap.get? m k = none) : GoMap.set m k v = m ++ [(k, v)] := by
  induction m with
  | nil => rfl
  | cons e m ih =>
    obtain ⟨k', v'⟩ := e
    by_cases hk : k' = k
    · simp [GoMap.get?, hk] at h
    · simp only [GoMap.get?, hk, if_false] at h
      simp [GoMap.set, hk, ih h]

theorem GoMap.mem_set {K V : Type} [DecidableEq K] (m : List (K × V)) (k : K) (v : V)
    (e : K × V) (h : e ∈ GoMap.set m k v) : e = (k, v) ∨ e ∈ m := by
  induction m with
  | nil =>
    simp only [GoMap.set, List.mem_singleton] at h
    exact Or.inl h
  | cons e' m ih =>
    obtain ⟨k', v'⟩ := e'
    by_cases hk : k' = k
    · simp only [GoMap.set, hk, if_true, List.mem_cons] at h
      rcases h with h | h
      · exact Or.inl h
      · exact Or.inr (List.mem_cons_of_mem _ h)
    · simp only [GoMap.set, hk, if_false, List.mem_cons] at h
      rcases h with h | h
      · exact Or.inr (h ▸ List.mem_cons_self _ _)
      · rcases ih h with h' | h'
        · exact Or.inl h'
        · exact Or.inr (List.mem_cons_of_mem _ h')

/-! ## `strings.Split` -/

theorem strings.Split.go_ne_nil (sep s : List Char) (skip : Nat) (cur : List Char) :
    strings.Split.go sep s skip cur ≠ [] := by
  induction s generalizing skip cur with
  | nil => simp [strings.Split.go]
  | cons c s ih =>
    cases skip with
    | succ k => simpa [strings.Split.go] using ih k cur
    | zero =>
      unfold strings.Split.go
      split
      · simp
      · exact ih 0 (c :: cur)

/-- The scanner passes over the rest of a separator it has matched. -/
theorem strings.Split.go_skip (sep x rest cur : List Char) :
    strings.Split.go sep (x ++ rest) x.length cur = strings.Split.go sep rest 0 cur := by
  induction x with
  | nil => cases rest <;> simp [strings.Split.go]
  | cons c x ih => simpa [strings.Split.go] using ih

theorem strings.Join_cons (x : List Char) (l : List (List Char)) (sep : List Char)
    (h : l ≠ []) : strings.Join (x :: l) sep = x ++ sep ++ strings.Join l sep := by
  cases l with
  | nil => exact absurd rfl h
  | cons y l => rfl

theorem strings.Split.go_join (sep : List Char) (hsep : sep ≠ []) (n : Nat) :
    ∀ (s cur : List Char), s.length ≤ n →
      strings.Join (strings.Split.go sep s 0 cur) sep = cur.reverse ++ s := by
  induction n with
  | zero =>
    intro s cur hs
    have : s = [] := List.length_eq_zero.1 (Nat.le_zero.1 hs)
    subst this
    simp [strings.Split.go, strings.Join]
  | succ n ih =>
    intro s cur hs
    cases s with
    | nil => simp [strings.Split.go, strings.Join]
    | cons c s =>
      unfold strings.Split.go
      split
      · rename_i hpre
        rw [List.isPrefixOf_iff_prefix] at hpre
        obtain ⟨rest, hrest⟩ := hpre
        cases sep with
        | nil => exact absurd rfl hsep
        | cons c' sep' =>
          simp only [List.cons_append, List.cons.injEq] at hrest
          obtain ⟨hc, hs'⟩ := hrest
          subst hc
          subst hs'
          simp only [List.length_cons, Nat.add_sub_cancel]
          rw [strings.Split.go_skip, strings.Join_cons _ _ _ (strings.Split.go_ne_nil _ _ _ _),
            ih rest [] (by simp only [List.length_cons, List.length_append] at hs; omega)]
          simp
      · rw [ih s (c :: cur) (by simpa using hs)]
        simp

/-- Joining the pieces of `strings.Split` with the separator gives back the
string. -/
theorem strings.Join_Split (s sep : List Char) (hsep : sep ≠ []) :
    strings.Join (strings.Split s sep) sep = s := by
  unfold strings.Split
  rw [strings.Split.go_join sep hsep s.length s [] (Nat.le_refl _)]
  rfl

/-- A line that `strings.Split` cuts in two at the opener is the first piece,
the opener, and the second piece. -/
theorem strings.Split_pair (line sep a0 a1 : List Char) (hsep : sep ≠ [])
    (h : strings.Split line sep = [a0, a1]) : line = a0 ++ sep ++ a1 := by
  have := strings.Join_Split line sep hsep
  rw [h] at this
  exact this.symm

/-- Characters before the first occurrence of the separator go to the current
piece. -/
theorem strings.Split.go_no_match (sep a0 tail cur : List Char)
    (h : ∀ u v, a0 = u ++ v → v ≠ [] → ¬ sep <+: v ++ tail) :
    strings.Split.go sep (a0 ++ tail) 0 cur = strings.Split.go sep tail 0 (a0.reverse ++ cur) := by
  induction a0 generalizing cur with
  | nil => rfl
  | cons c a0 ih =>
    have hc : ¬ sep.isPrefixOf (c :: (a0 ++ tail)) = true := by
      rw [List.isPrefixOf_iff_prefix]
      exact h [] (c :: a0) rfl (List.cons_ne_nil _ _)
    rw [List.cons_append]
    conv_lhs => unfold strings.Split.go
    rw [if_neg hc, ih]
    · simp
    · intro u v huv hv
      exact h (c :: u) v (by rw [huv]; rfl) hv

/-- A line with exactly one occurrence of a non-empty separator is cut in two
by `strings.Split`: the part before the occurrence and the part after it. -/
theorem strings.Split_one_occurrence (sep a0 a1 : List Char) (hsep : sep ≠ [])
    (h0 : ∀ u v, a0 = u ++ v → v ≠ [] → ¬ sep <+: v ++ (sep ++ a1))
    (h1 : ∀ u v, a1 = u ++ v → v ≠ [] → ¬ sep <+: v) :
    strings.Split (a0 ++ sep ++ a1) sep = [a0, a1] := by
  unfold strings.Split
  rw [List.append_assoc, strings.Split.go_no_match sep a0 (sep ++ a1) [] h0]
  cases sep with
  | nil => exact absurd rfl hsep
  | cons c sep' =>
    have hp : (c :: sep').isPrefixOf (c :: (sep' ++ a1)) = true := by
      rw [List.isPrefixOf_iff_prefix]
      exact ⟨a1, rfl⟩
    rw [List.cons_append]
    conv_lhs => unfold strings.Split.go
    rw [if_pos hp]
    simp only [List.length_cons, Nat.add_sub_cancel, List.append_nil, List.reverse_reverse]
    rw [strings.Split.go_skip]
    have := strings.Split.go_no_match (c :: sep') a1 [] []
      (fun u v huv hv => by simpa using h1 u v huv hv)
    rw [List.append_nil] at this
    rw [this]
    cases a1 <;> simp [strings.Split.go]

/-! ## The store and its series -/

theorem skiplist.Add_perm {R : Type} (sl : skiplist.Skiplist R) (d : BandItem R) (sc : Int) :
    (sl.Add d sc).Perm (⟨sc, d⟩ :: sl) := by
  induction sl with
  | nil => simp [skiplist.Skiplist.Add]
  | cons n sl ih =>
    unfold skiplist.Skiplist.Add
    split
    · exact (ih.cons n).trans (List.Perm.swap _ _ _)
    · exact List.Perm.refl _

theorem skiplist.Add_ascending {R : Type} (sl : skiplist.Skiplist R) (d : BandItem R) (sc : Int)
    (h : sl.Ascending) : (sl.Add d sc).Ascending := by
  induction sl with
  | nil => simp [skiplist.Skiplist.Add, skiplist.Skiplist.Ascending]
  | cons n sl ih =>
    unfold skiplist.Skiplist.Ascending at h ih ⊢
    rw [List.pairwise_cons] at h
    unfold skiplist.Skiplist.Add
    split
    · rename_i hle
      rw [List.pairwise_cons]
      refine ⟨?_, ih h.2⟩
      intro m hm
      have := (skiplist.Add_perm sl d sc).mem_iff.1 hm
      rcases List.mem_cons.1 this with rfl | hm'
      · exact hle
      · exact h.1 m hm'
    · rename_i hle
      rw [List.pairwise_cons]
      refine ⟨?_, List.pairwise_cons.2 h⟩
      intro m hm
      rcases List.mem_cons.1 hm with rfl | hm'
      · exact le_of_lt (not_le.1 hle)
      · exact le_trans (le_of_lt (not_le.1 hle)) (h.1 m hm')

/-- Stability of one insertion: among the nodes of a given score the new node
comes last, the others keep their order. -/
theorem skiplist.Add_filter {R : Type} (sl : skiplist.Skiplist R) (d : BandItem R) (sc k : Int)
    (h : sl.Ascending) :
    (sl.Add d sc).filter (fun n => decide (n.Score = k)) =
      sl.filter (fun n => decide (n.Score = k)) ++ (if sc = k then [⟨sc, d⟩] else []) := by
  induction sl with
  | nil =>
    by_cases hk : sc = k <;> simp [skiplist.Skiplist.Add, hk]
  | cons n sl ih =>
    unfold skiplist.Skiplist.Ascending at h ih
    rw [List.pairwise_cons] at h
    unfold skiplist.Skiplist.Add
    split
    · rw [List.filter_cons, List.filter_cons, ih h.2]
      split <;> simp
    · rename_i hle
      by_cases hk : sc = k
      · subst hk
        have hn : ¬ n.Score = sc := fun e => hle (le_of_eq e)
        have hsl : sl.filter (fun n => decide (n.Score = sc)) = [] := by
          rw [List.filter_eq_nil_iff]
          intro m hm
          simp only [decide_eq_true_eq]
          intro e
          have := h.1 m hm
          omega
        simp [List.filter_cons, hn, hsl]
      · simp [List.filter_cons, hk]

theorem skiplist.Add_of_le {R : Type} (sl : skiplist.Skiplist R) (d : BandItem R) (sc : Int)
    (h : ∀ n ∈ sl, n.Score ≤ sc) : sl.Add d sc = sl ++ [⟨sc, d⟩] := by
  induction sl with
  | nil => simp [skiplist.Skiplist.Add]
  | cons n sl ih =>
    unfold skiplist.Skiplist.Add
    rw [if_pos (h n (List.mem_cons_self _ _)), ih (fun m hm => h m (List.mem_cons_of_mem _ hm))]
    rfl

theorem addAll_inv {R : Type} (items : List (BandItem R)) :
    (addAll [] items).Ascending ∧
      (∀ n ∈ addAll [] items, n.Score = scoreOf n.Data.Time) ∧
      ((addAll [] items).map (fun n => n.Data)).Perm items ∧
      ∀ k, ((addAll [] items).filter (fun n => decide (n.Score = k))).map (fun n => n.Data) =
        items.filter (fun i => decide (scoreOf i.Time = k)) := by
  induction items using List.reverseRecOn with
  | nil => simp [addAll, skiplist.Skiplist.Ascending]
  | append_singleton items i ih =>
    obtain ⟨h₁, h₂, h₃, h₄⟩ := ih
    have e : addAll [] (items ++ [i]) = (addAll [] items).Add i (scoreOf i.Time) := by
      simp [addAll, List.foldl_append]
    rw [e]
    refine ⟨skiplist.Add_ascending _ _ _ h₁, ?_, ?_, ?_⟩
    · intro n hn
      rcases List.mem_cons.1 ((skiplist.Add_perm _ _ _).mem_iff.1 hn) with rfl | hn'
      · rfl
      · exact h₂ n hn'
    · refine ((skiplist.Add_perm _ _ _).map _).trans ?_
      rw [List.map_cons]
      exact (h₃.cons i).trans (List.perm_append_singleton i items).symm
    · intro k
      rw [skiplist.Add_filter _ _ _ _ h₁, List.map_append, h₄ k, List.filter_append]
      by_cases hk : scoreOf i.Time = k <;> simp [hk]

theorem addAll_of_ascending {R : Type} (items : List (BandItem R))
    (h : items.Pairwise (fun x y => scoreOf x.Time ≤ scoreOf y.Time)) :
    addAll [] items = items.map (fun i => ⟨scoreOf i.Time, i⟩) := by
  induction items using List.reverseRecOn with
  | nil => simp [addAll]
  | append_singleton items i ih =>
    rw [List.pairwise_append] at h
    have e : addAll [] (items ++ [i]) = (addAll [] items).Add i (scoreOf i.Time) := by
      simp [addAll, List.foldl_append]
    rw [e, ih h.1, skiplist.Add_of_le]
    · simp
    · intro n hn
      rw [List.mem_map] at hn
      obtain ⟨j, hj, rfl⟩ := hn
      exact h.2.2 j hj i (List.mem_singleton_self i)

theorem Store.series_Add {R : Type} (s : Store R) (item : BandItem R) (a : List Char) :
    (s.Add item).series a =
      if item.Ip = a then (s.series a).Add item (scoreOf item.Time) else s.series a := by
  unfold Store.Add Store.series
  by_cases h : item.Ip = a
  · subst h
    cases hg : GoMap.get? s.data item.Ip <;>
      simp [GoMap.get?_set_self, skiplist.New]
  · cases hg : GoMap.get? s.data item.Ip <;>
      simp [GoMap.get?_set_ne _ _ _ _ h, h]

theorem Store.series_foldl_Add {R : Type} (items : List (BandItem R)) (s : Store R)
    (a : List Char) :
    (items.foldl Store.Add s).series a =
      addAll (s.series a) (items.filter (fun i => decide (i.Ip = a))) := by
  induction items generalizing s with
  | nil => simp [addAll]
  | cons i items ih =>
    rw [List.foldl_cons, ih, Store.series_Add, List.filter_cons]
    by_cases h : i.Ip = a <;> simp [h, addAll]

theorem Store.get?_foldl_Add {R : Type} (items : List (BandItem R)) (s : Store R)
    (a : List Char) :
    GoMap.get? (items.foldl Store.Add s).data a = none ↔
      GoMap.get? s.data a = none ∧ items.filter (fun i => decide (i.Ip = a)) = [] := by
  induction items generalizing s with
  | nil => simp
  | cons i items ih =>
    rw [List.foldl_cons, ih, List.filter_cons]
    by_cases h : i.Ip = a
    · subst h
      unfold Store.Add
      cases hg : GoMap.get? s.data i.Ip <;> simp [GoMap.get?_set_self]
    · unfold Store.Add
      cases hg : GoMap.get? s.data i.Ip <;> simp [GoMap.get?_set_ne _ _ _ _ h, h]

/-- The empty store is scored by time and `Store.Add` keeps a store so. -/
theorem Store.ScoredByTime_Add {R : Type} (s : Store R) (item : BandItem R)
    (h : s.ScoredByTime) : (s.Add item).ScoredByTime := by
  intro e he n hn
  have key : ∀ sl : skiplist.Skiplist R, (∀ m ∈ sl, m.Score = scoreOf m.Data.Time) →
      e ∈ GoMap.set s.data item.Ip (sl.Add item (scoreOf item.Time)) →
      n.Score = scoreOf n.Data.Time := by
    intro sl hsl hmem
    rcases GoMap.mem_set _ _ _ _ hmem with heq | hold
    · subst heq
      rcases List.mem_cons.1 ((skiplist.Add_perm sl item _).mem_iff.1 hn) with rfl | hn'
      · rfl
      · exact hsl n hn'
    · exact h e hold n hn
  unfold Store.Add at he
  cases hg : GoMap.get? s.data item.Ip with
  | none =>
    rw [hg] at he
    exact key [] (fun m hm => by cases hm) he
  | some sl =>
    rw [hg] at he
    exact key sl (h (item.Ip, sl) (GoMap.mem_of_get? _ _ _ hg)) he

theorem Store.ScoredByTime_foldl_Add {R : Type} (items : List (BandItem R)) (s : Store R)
    (h : s.ScoredByTime) : (items.foldl Store.Add s).ScoredByTime := by
  induction items generalizing s with
  | nil => exact h
  | cons i items ih => exact ih _ (Store.ScoredByTime_Add s i h)

/-- Within `2 ^ 53` seconds of the epoch the score of a time is its number of
Unix seconds. -/
theorem scoreOf_exact (t : Time) (h : t.Unix.natAbs ≤ 2 ^ 53) : scoreOf t = t.Unix :=
  float64.ofInt64_exact t.Unix h

/-- C3 as stated fails: the samples of address `A` inserted at the Unix times
`2 ^ 53 + 1` and then `2 ^ 53` are stored under the same score, `2 ^ 53`, so a
range query over all of `int64` returns them in insertion order, which is not
ascending by timestamp. -/
theorem series_not_ascending_beyond_53_bits :
    scoreOf ⟨9007199254740993⟩ = 9007199254740992 ∧
      (readBack exampleBeyond53 "A".toList (-9223372036854775808) 9223372036854775808).map
          (fun i => i.Time.Unix) = [9007199254740993, 9007199254740992] ∧
      ¬ (readBack exampleBeyond53 "A".toList (-9223372036854775808) 9223372036854775808).Pairwise
          (fun x y => x.Time.Unix ≤ y.Time.Unix) := by
  decide

/-- C3, amended: after any sequence of `Store.Add` calls, a range query that
covers every score returns, for an address, the samples inserted for it stably
sorted by score, the `float64` of the Unix seconds of the timestamp: ascending
by score, the samples of one score in insertion order, none discarded, and a
sequence inserted with ascending scores is returned in insertion order. When
the timestamps of the address lie within `2 ^ 53` seconds of the epoch, where
the conversion is exact, this is the stable sort by timestamp: ascending by
timestamp, the samples of one timestamp in insertion order, and a sequence
inserted with ascending timestamps is returned in insertion order. -/
theorem series_is_stable_sort_by_score {R : Type} (items : List (BandItem R)) (a : List Char)
    (lo hi : Int) (hlo : ∀ i ∈ items, lo ≤ scoreOf i.Time)
    (hhi : ∀ i ∈ items, scoreOf i.Time ≤ hi) :
    (readBack items a lo hi).Pairwise (fun x y => scoreOf x.Time ≤ scoreOf y.Time) ∧
      (∀ k, (readBack items a lo hi).filter (fun i => decide (scoreOf i.Time = k)) =
        (items.filter (fun i => decide (i.Ip = a))).filter
          (fun i => decide (scoreOf i.Time = k))) ∧
      (readBack items a lo hi).Perm (items.filter (fun i => decide (i.Ip = a))) ∧
      ((items.filter (fun i => decide (i.Ip = a))).Pairwise
          (fun x y => scoreOf x.Time ≤ scoreOf y.Time) →
        readBack items a lo hi = items.filter (fun i => decide (i.Ip = a))) ∧
      ((∀ i ∈ items, i.Ip = a → i.Time.Unix.natAbs ≤ 2 ^ 53) →
        (readBack items a lo hi).Pairwise (fun x y => x.Time.Unix ≤ y.Time.Unix) ∧
          (∀ t, (readBack items a lo hi).filter (fun i => decide (i.Time = t)) =
            (items.filter (fun i => decide (i.Ip = a))).filter
              (fun i => decide (i.Time = t))) ∧
          ((items.filter (fun i => decide (i.Ip = a))).Pairwise
              (fun x y => x.Time.Unix ≤ y.Time.Unix) →
            readBack items a lo hi = items.filter (fun i => decide (i.Ip = a)))) := by
  have hs : (items.foldl Store.Add Store.empty).series a =
      addAll [] (items.filter (fun i => decide (i.Ip = a))) := by
    rw [Store.series_foldl_Add]
    rfl
  obtain ⟨h₁, h₂, h₃, h₄⟩ := addAll_inv (items.filter (fun i => decide (i.Ip = a)))
  have hr : readBack items a lo hi =
      (addAll [] (items.filter (fun i => decide (i.Ip = a)))).map (fun n => n.Data) := by
    unfold readBack skiplist.Skiplist.RangeByScore
    rw [hs, List.filter_eq_self.2]
    intro n hn
    have hd : n.Data ∈ items := by
      have : n.Data ∈ (addAll [] (items.filter (fun i => decide (i.Ip = a)))).map
          (fun n => n.Data) := List.mem_map.2 ⟨n, hn, rfl⟩
      exact (List.mem_filter.1 (h₃.mem_iff.1 this)).1
    have hsc := h₂ n hn
    have h1 := hlo _ hd
    have h2 := hhi _ hd
    simp only [decide_eq_true_eq]
    omega
  have hsorted : (readBack items a lo hi).Pairwise
      (fun x y => scoreOf x.Time ≤ scoreOf y.Time) := by
    rw [hr, List.pairwise_map]
    refine List.Pairwise.imp_of_mem ?_ h₁
    intro x y hx hy hxy
    have := h₂ x hx
    have := h₂ y hy
    omega
  have hfilter : ∀ k, (readBack items a lo hi).filter (fun i => decide (scoreOf i.Time = k)) =
      (items.filter (fun i => decide (i.Ip = a))).filter
        (fun i => decide (scoreOf i.Time = k)) := by
    intro k
    rw [hr, ← h₄ k, List.filter_map]
    congr 1
    refine List.filter_congr ?_
    intro n hn
    have := h₂ n hn
    simp only [Function.comp]
    rw [this]
  have hperm : (readBack items a lo hi).Perm (items.filter (fun i => decide (i.Ip = a))) := by
    rw [hr]
    exact h₃
  have hid : (items.filter (fun i => decide (i.Ip = a))).Pairwise
      (fun x y => scoreOf x.Time ≤ scoreOf y.Time) →
      readBack items a lo hi = items.filter (fun i => decide (i.Ip = a)) := by
    intro hp
    rw [hr, addAll_of_ascending _ hp, List.map_map]
    exact List.map_id _
  refine ⟨hsorted, hfilter, hperm, hid, ?_⟩
  intro hb
  have hown : ∀ i ∈ items.filter (fun i => decide (i.Ip = a)), scoreOf i.Time = i.Time.Unix := by
    intro i hi
    rw [List.mem_filter, decide_eq_true_eq] at hi
    exact scoreOf_exact _ (hb i hi.1 hi.2)
  have hgot : ∀ i ∈ readBack items a lo hi, scoreOf i.Time = i.Time.Unix :=
    fun i hi => hown i (hperm.mem_iff.1 hi)
  have hcongr : ∀ (l : List (BandItem R)), (∀ i ∈ l, scoreOf i.Time = i.Time.Unix) →
      ∀ t : Time, l.filter (fun i => decide (i.Time = t)) =
        l.filter (fun i => decide (scoreOf i.Time = t.Unix)) := by
    intro l hl t
    refine List.filter_congr ?_
    intro i hi
    rw [hl i hi]
    cases hit : i.Time
    cases t
    simp
  refine ⟨?_, ?_, ?_⟩
  · refine List.Pairwise.imp_of_mem ?_ hsorted
    intro x y hx hy hxy
    rw [hgot x hx, hgot y hy] at hxy
    exact hxy
  · intro t
    rw [hcongr _ hgot t, hcongr _ hown t]
    exact hfilter t.Unix
  · intro hp
    apply hid
    refine List.Pairwise.imp_of_mem ?_ hp
    intro x y hx hy hxy
    rw [hown x hx, hown y hy]
    exact hxy

theorem series_is_stable_sort_by_score_witness :
    ((∀ i ∈ exampleInserts, (0 : Int) ≤ scoreOf i.Time) ∧
      (∀ i ∈ exampleInserts, scoreOf i.Time ≤ 10) ∧
      ∀ i ∈ exampleInserts, i.Ip = "A".toList → i.Time.Unix.natAbs ≤ 2 ^ 53) ∧
      (readBack exampleInserts "A".toList 0 10).map (fun i => i.BandwidthIn) = [2, 4, 1, 3] ∧
      (readBack exampleInserts "A".toList 0 10).Pairwise
        (fun x y => x.Time.Unix ≤ y.Time.Unix) :=
  ⟨⟨by decide, by decide, by decide⟩, by decide,
    ((series_is_stable_sort_by_score exampleInserts "A".toList 0 10 (by decide)
      (by decide)).2.2.2.2 (by decide)).1⟩

/-! ## Ingestion -/

theorem handleBandReportOne_eq_foldl {R : Type} (L : Lib R) (store : Store R) (logTime : Time)
    (line a0 a1 : List Char) (h : strings.Split line "[\x7b".toList = [a0, a1]) :
    handleBandReportOne L store logTime line =
      ((tuplesOf a1).filterMap (handleBandReportOne.item L logTime)).foldl Store.Add store := by
  have key : ∀ (tuples : List (List Char)) (st : Store R),
      tuples.foldl (handleBandReportOne.tuple L logTime) st =
        (tuples.filterMap (handleBandReportOne.item L logTime)).foldl Store.Add st := by
    intro tuples
    induction tuples with
    | nil => intro st; rfl
    | cons v tuples ih =>
      intro st
      rw [List.foldl_cons, ih, List.filterMap_cons]
      unfold handleBandReportOne.tuple
      cases handleBandReportOne.item L logTime v <;> rfl
  unfold handleBandReportOne
  rw [h]
  simp only
  split
  · rename_i h0
    have : tuplesOf a1 = [] := List.length_eq_zero.1 h0
    rw [this]
    rfl
  · exact key _ _

theorem item_six {R : Type} (L : Lib R) (logTime : Time) (v : List Char) (i : BandItem R)
    (h : handleBandReportOne.item L logTime v = some i) :
    (strings.Split v " ".toList).length = 6 ∧
      i.Ip = (strings.Split v " ".toList).headD [] ∧ i.Time = logTime := by
  unfold handleBandReportOne.item at h
  split at h
  · rename_i av0 av1 av2 av3 av4 av5 heq
    simp only [Option.some.injEq] at h
    subst h
    rw [heq]
    simp
  · cases h

theorem item_none {R : Type} (L : Lib R) (logTime : Time) (v : List Char)
    (h : handleBandReportOne.item L logTime v = none) :
    (strings.Split v " ".toList).length ≠ 6 := by
  unfold handleBandReportOne.item at h
  split at h
  · cases h
  · rename_i hne
    intro hlen
    match hs : strings.Split v " ".toList, hlen with
    | [b0, b1, b2, b3, b4, b5], _ => exact hne b0 b1 b2 b3 b4 b5 hs

theorem item_projection {R : Type} (L : Lib R) (logTime : Time) (tuples : List (List Char)) :
    (tuples.filterMap (handleBandReportOne.item L logTime)).map (fun i => (i.Ip, i.Time)) =
      (tuples.filter (fun v => decide ((strings.Split v " ".toList).length = 6))).map
        (fun v => ((strings.Split v " ".toList).headD [], logTime)) := by
  induction tuples with
  | nil => rfl
  | cons v tuples ih =>
    rw [List.filterMap_cons, List.filter_cons]
    cases hi : handleBandReportOne.item L logTime v with
    | none =>
      have := item_none L logTime v hi
      simp only [this, decide_False, Bool.false_eq_true, if_false]
      exact ih
    | some i =>
      obtain ⟨h6, hip, ht⟩ := item_six L logTime v i hi
      simp only [h6, decide_True, if_true, List.map_cons, ih, hip, ht]

/-- C5: for a line with exactly one opener, `handleBandReportOne` adds to the
store one sample for each tuple that has six space-separated fields, in tuple
order, with the tuple's first field as address and the callback's time as
timestamp; tuples with another number of fields add nothing and do not stop
the tuples after them. -/
theorem handleBandReportOne_inserts {R : Type} (L : Lib R) (store : Store R) (logTime : Time)
    (line a0 a1 : List Char) (h : strings.Split line "[\x7b".toList = [a0, a1]) :
    ∃ items : List (BandItem R),
      handleBandReportOne L store logTime line = items.foldl Store.Add store ∧
        items.map (fun i => (i.Ip, i.Time)) =
          ((tuplesOf a1).filter (fun v => decide ((strings.Split v " ".toList).length = 6))).map
            (fun v => ((strings.Split v " ".toList).headD [], logTime)) :=
  ⟨(tuplesOf a1).filterMap (handleBandReportOne.item L logTime),
    handleBandReportOne_eq_foldl L store logTime line a0 a1 h, item_projection L logTime _⟩

theorem handleBandReportOne_inserts_witness :
    strings.Split exampleLine "[\x7b".toList =
        ["2020 band ".toList,
          "36.42.77.1 677 0 1762.19 6077.3 0\x7d \x7bbad tuple\x7d \x7b1.2.3.4 7 1 10 20 1\x7d]".toList] ∧
      ((tuplesOf
          "36.42.77.1 677 0 1762.19 6077.3 0\x7d \x7bbad tuple\x7d \x7b1.2.3.4 7 1 10 20 1\x7d]".toList).filter
            (fun v => decide ((strings.Split v " ".toList).length = 6))).map
          (fun v => ((strings.Split v " ".toList).headD [], (⟨100⟩ : Time))) =
        [("36.42.77.1".toList, ⟨100⟩), ("1.2.3.4".toList, ⟨100⟩)] ∧
      ∃ items : List (BandItem Int),
        handleBandReportOne demo.lib Store.empty ⟨100⟩ exampleLine =
            items.foldl Store.Add Store.empty ∧
          items.map (fun i => (i.Ip, i.Time)) =
            ((tuplesOf
              "36.42.77.1 677 0 1762.19 6077.3 0\x7d \x7bbad tuple\x7d \x7b1.2.3.4 7 1 10 20 1\x7d]".toList).filter
                (fun v => decide ((strings.Split v " ".toList).length = 6))).map
              (fun v => ((strings.Split v " ".toList).headD [], (⟨100⟩ : Time))) :=
  ⟨by decide, by decide,
    handleBandReportOne_inserts demo.lib Store.empty ⟨100⟩ exampleLine "2020 band ".toList _
      (by decide)⟩

/-- C6 as stated fails: in the line `[{1.2.3.4 x 0 1.5 2.5 0}]` the siteId `x`
of the only tuple is not a number, and the tuple is inserted all the same, with
siteId 0. -/
theorem unparseable_siteId_is_inserted :
    (strings.Split "1.2.3.4 x 0 1.5 2.5 0".toList " ".toList).length = 6 ∧
      (demo.lib.ParseInt "x".toList).2 = true ∧
      (handleBandReportOne demo.lib Store.empty ⟨100⟩
          "[\x7b1.2.3.4 x 0 1.5 2.5 0\x7d]".toList).data =
        [("1.2.3.4".toList, [⟨100, ⟨"1.2.3.4".toList, 0, 0, 150, 250, 0, ⟨100⟩⟩⟩])] := by
  decide

/-- C6, amended: `handleBandReportOne` discards the errors of the parsers, so
for a line with one opener every six-field tuple is inserted whether or not its
numeric fields parse, each numeric field holding the value the parser returned;
the samples added are those of all six-field tuples of the line, in order. -/
theorem parse_errors_are_discarded {R : Type} (L : Lib R) (store : Store R) (logTime : Time)
    (line a0 a1 : List Char) (h : strings.Split line "[\x7b".toList = [a0, a1]) :
    handleBandReportOne L store logTime line =
        ((tuplesOf a1).filterMap (handleBandReportOne.item L logTime)).foldl Store.Add store ∧
      ∀ v f0 f1 f2 f3 f4 f5 : List Char, strings.Split v " ".toList = [f0, f1, f2, f3, f4, f5] →
        handleBandReportOne.item L logTime v =
          some
            { Ip := f0
              PopId := (L.ParseInt f1).1
              Server := if f2 = "1".toList then 1 else 0
              BandwidthIn := (L.ParseFloat f3).1
              BandwidthOut := (L.ParseFloat f4).1
              DataFrom := (GoMap.get? BandDataFromStrMap f5).getD 0
              Time := logTime } := by
  refine ⟨handleBandReportOne_eq_foldl L store logTime line a0 a1 h, ?_⟩
  intro v f0 f1 f2 f3 f4 f5 hv
  unfold handleBandReportOne.item
  rw [hv]

theorem parse_errors_are_discarded_witness :
    strings.Split "[\x7b1.2.3.4 x 0 abc 2.5 0\x7d \x7b5.6.7.8 1 1 1 1 1\x7d]".toList "[\x7b".toList =
        [[], "1.2.3.4 x 0 abc 2.5 0\x7d \x7b5.6.7.8 1 1 1 1 1\x7d]".toList] ∧
      (handleBandReportOne demo.lib Store.empty ⟨100⟩
          "[\x7b1.2.3.4 x 0 abc 2.5 0\x7d \x7b5.6.7.8 1 1 1 1 1\x7d]".toList).data =
        [("1.2.3.4".toList, [⟨100, ⟨"1.2.3.4".toList, 0, 0, 0, 250, 0, ⟨100⟩⟩⟩]),
          ("5.6.7.8".toList, [⟨100, ⟨"5.6.7.8".toList, 1, 1, 100, 100, 1, ⟨100⟩⟩⟩])] ∧
      handleBandReportOne demo.lib Store.empty ⟨100⟩
          "[\x7b1.2.3.4 x 0 abc 2.5 0\x7d \x7b5.6.7.8 1 1 1 1 1\x7d]".toList =
        ((tuplesOf "1.2.3.4 x 0 abc 2.5 0\x7d \x7b5.6.7.8 1 1 1 1 1\x7d]".toList).filterMap
          (handleBandReportOne.item demo.lib ⟨100⟩)).foldl Store.Add Store.empty :=
  ⟨by decide, by decide,
    (parse_errors_are_discarded demo.lib Store.empty ⟨100⟩ _ [] _ (by decide)).1⟩

/-! ## Aggregation -/

theorem mem_firstSeen {α : Type} [DecidableEq α] (l : List α) (a : α) :
    a ∈ firstSeen l ↔ a ∈ l := by
  induction l with
  | nil => simp [firstSeen]
  | cons b l ih =>
    by_cases h : a = b
    · simp [firstSeen, h]
    · simp [firstSeen, h, ih]

theorem nodup_firstSeen {α : Type} [DecidableEq α] (l : List α) : (firstSeen l).Nodup := by
  induction l with
  | nil => simp [firstSeen]
  | cons b l ih =>
    simp only [firstSeen, List.nodup_cons]
    refine ⟨?_, ih.filter _⟩
    simp

theorem firstSeen_sublist {α : Type} [DecidableEq α] (l : List α) : (firstSeen l).Sublist l := by
  induction l with
  | nil => simp [firstSeen]
  | cons b l ih =>
    simp only [firstSeen]
    exact ((List.filter_sublist _).trans ih).cons₂ b

theorem firstSeen_append_singleton {α : Type} [DecidableEq α] (l : List α) (a : α) :
    firstSeen (l ++ [a]) = if a ∈ l then firstSeen l else firstSeen l ++ [a] := by
  induction l with
  | nil => simp [firstSeen]
  | cons b l ih =>
    rw [List.cons_append, firstSeen, ih]
    by_cases hb : a = b
    · subst hb
      by_cases hl : a ∈ l
      · simp [hl, firstSeen]
      · simp [hl, firstSeen, List.filter_append]
    · by_cases hl : a ∈ l
      · simp [hl, hb, firstSeen]
      · simp [hl, hb, firstSeen, List.filter_append]

theorem scanned_append {R : Type} (s : Store R) (xs ys : List (List Char)) :
    scanned s (xs ++ ys) = scanned s xs ++ scanned s ys := by
  simp [scanned, List.flatMap_append]

theorem mem_scanned {R : Type} (s : Store R) (rips : List (List Char)) (m : skiplist.Node R)
    (h : m ∈ scanned s rips) :
    ∃ rip sl, GoMap.get? s.data rip = some sl ∧ m ∈ sl ∧
      0 ≤ m.Score ∧ m.Score ≤ math.MaxFloat64 := by
  unfold scanned at h
  rw [List.mem_flatMap] at h
  obtain ⟨rip, -, hm⟩ := h
  cases hg : GoMap.get? s.data rip with
  | none => rw [hg] at hm; cases hm
  | some sl =>
    rw [hg] at hm
    simp only [skiplist.Skiplist.RangeByScore, List.mem_filter, decide_eq_true_eq] at hm
    exact ⟨rip, sl, hg, hm.1, hm.2.1, hm.2.2⟩

/-- In a store scored by time, the scanned nodes with the timestamp of a
scanned node are all the member nodes with that timestamp. -/
theorem scanned_filter_time {R : Type} (s : Store R) (rips : List (List Char)) (t : Time)
    (hs : s.ScoredByTime) (ht : 0 ≤ scoreOf t ∧ scoreOf t ≤ math.MaxFloat64) :
    (scanned s rips).filter (fun m => decide (m.Data.Time = t)) =
      (memberNodes s rips).filter (fun m => decide (m.Data.Time = t)) := by
  induction rips with
  | nil => rfl
  | cons rip rips ih =>
    have e₁ : scanned s (rip :: rips) = scanned s [rip] ++ scanned s rips :=
      scanned_append s [rip] rips
    have e₂ : memberNodes s (rip :: rips) = s.series rip ++ memberNodes s rips := by
      simp [memberNodes, List.flatMap_cons]
    rw [e₁, e₂, List.filter_append, List.filter_append, ih]
    congr 1
    unfold scanned Store.series
    simp only [List.flatMap_cons, List.flatMap_nil, List.append_nil]
    cases hg : GoMap.get? s.data rip with
    | none => rfl
    | some sl =>
      simp only [Option.getD_some, skiplist.Skiplist.RangeByScore, List.filter_filter]
      apply List.filter_congr
      intro x hx
      by_cases hxt : x.Data.Time = t
      · have := hs (rip, sl) (GoMap.mem_of_get? _ _ _ hg) x hx
        rw [hxt] at this
        simp [hxt, this, ht.1, ht.2]
      · simp [hxt]

theorem sumRip_foldl {R : Type} (L : Lib R) (s : Store R) (rips : List (List Char))
    (st : SumState R) :
    rips.foldl (Store.PrintGroupData.sumRip L s) st =
      (scanned s rips).foldl (Store.PrintGroupData.sumOne L) st := by
  induction rips generalizing st with
  | nil => simp [scanned]
  | cons rip rips ih =>
    simp only [List.foldl_cons, ih, scanned, List.flatMap_cons, List.foldl_append]
    congr 1
    unfold Store.PrintGroupData.sumRip
    cases GoMap.get? s.data rip <;> simp

theorem sumAt_eq_none_iff {R : Type} (L : Lib R) (xs : List (skiplist.Node R)) (t : Time) :
    sumAt L xs t = none ↔ t ∉ xs.map (fun n => n.Data.Time) := by
  unfold sumAt
  cases h : xs.filter (fun n => decide (n.Data.Time = t)) with
  | nil =>
    simp only [true_iff, List.mem_map, not_exists, not_and]
    intro n hn ht
    have : n ∈ xs.filter (fun n => decide (n.Data.Time = t)) := by simp [hn, ht]
    simp [h] at this
  | cons f rest =>
    have : f ∈ xs.filter (fun n => decide (n.Data.Time = t)) := by simp [h]
    simp only [List.mem_filter, decide_eq_true_eq] at this
    constructor
    · intro hc; cases hc
    · intro hc; exact absurd (List.mem_map.2 ⟨f, this.1, this.2⟩) hc

theorem sumAt_time {R : Type} (L : Lib R) (xs : List (skiplist.Node R)) (t : Time)
    (n : skiplist.Node R) (h : sumAt L xs t = some n) : n.Data.Time = t := by
  unfold sumAt at h
  cases hf : xs.filter (fun n => decide (n.Data.Time = t)) with
  | nil => rw [hf] at h; cases h
  | cons f rest =>
    rw [hf] at h
    simp only [Option.some.injEq] at h
    subst h
    have : f ∈ xs.filter (fun n => decide (n.Data.Time = t)) := by simp [hf]
    simp only [List.mem_filter, decide_eq_true_eq] at this
    exact this.2

theorem sumOne_foldl_inv {R : Type} (L : Lib R) (xs : List (skiplist.Node R)) :
    (xs.foldl (Store.PrintGroupData.sumOne L) ⟨[], []⟩).sumTimePoints =
        firstSeen (xs.map (fun n => n.Data.Time)) ∧
      ∀ t, GoMap.get? (xs.foldl (Store.PrintGroupData.sumOne L) ⟨[], []⟩).sumValues t =
        sumAt L xs t := by
  induction xs using List.reverseRecOn with
  | nil => simp [firstSeen, GoMap.get?, sumAt]
  | append_singleton xs v ih =>
    obtain ⟨ih₁, ih₂⟩ := ih
    rw [List.foldl_append, List.foldl_cons, List.foldl_nil, List.map_append, List.map_singleton,
      firstSeen_append_singleton]
    generalize xs.foldl (Store.PrintGroupData.sumOne L) ⟨[], []⟩ = st at ih₁ ih₂
    have hv := ih₂ v.Data.Time
    unfold Store.PrintGroupData.sumOne
    cases hs : sumAt L xs v.Data.Time with
    | none =>
      have hmem := (sumAt_eq_none_iff L xs v.Data.Time).1 hs
      rw [hs] at hv
      simp only [hv, if_neg hmem, ih₁, true_and]
      intro t
      by_cases ht : v.Data.Time = t
      · subst ht
        rw [GoMap.get?_set_self]
        have hf : xs.filter (fun n => decide (n.Data.Time = v.Data.Time)) = [] := by
          rw [List.filter_eq_nil_iff]
          intro n hn
          simp only [decide_eq_true_eq]
          intro hnt
          exact hmem (List.mem_map.2 ⟨n, hn, hnt⟩)
        simp [sumAt, List.filter_append, hf]
      · rw [GoMap.get?_set_ne _ _ _ _ ht, ih₂]
        simp [sumAt, List.filter_append, ht]
    | some n =>
      have hmem : v.Data.Time ∈ xs.map (fun n => n.Data.Time) := by
        by_contra hc
        rw [(sumAt_eq_none_iff L xs v.Data.Time).2 hc] at hs
        cases hs
      rw [hs] at hv
      simp only [hv, if_pos hmem, ih₁, true_and]
      intro t
      by_cases ht : v.Data.Time = t
      · subst ht
        rw [GoMap.get?_set_self]
        unfold sumAt at hs ⊢
        rw [List.filter_append]
        cases hf : xs.filter (fun n => decide (n.Data.Time = v.Data.Time)) with
        | nil => rw [hf] at hs; cases hs
        | cons f rest =>
          rw [hf] at hs
          simp only [Option.some.injEq] at hs
          subst hs
          simp [List.foldl_append]
      · rw [GoMap.get?_set_ne _ _ _ _ ht, ih₂]
        simp [sumAt, List.filter_append, ht]

/-- The aggregated series in closed form: one node per distinct scanned
timestamp, in first-seen order, each the aggregate of the nodes scanned with
that timestamp. -/
theorem values_eq {R : Type} (L : Lib R) (s : Store R) (rips : List (List Char)) :
    Store.PrintGroupData.values L s rips =
      (firstSeen ((scanned s rips).map (fun n => n.Data.Time))).filterMap
        (sumAt L (scanned s rips)) := by
  unfold Store.PrintGroupData.values
  simp only [sumRip_foldl]
  obtain ⟨h₁, h₂⟩ := sumOne_foldl_inv L (scanned s rips)
  rw [h₁]
  exact List.filterMap_congr (fun t _ => h₂ t)

theorem values_times {R : Type} (L : Lib R) (s : Store R) (rips : List (List Char)) :
    (Store.PrintGroupData.values L s rips).map (fun n => n.Data.Time) =
      firstSeen ((scanned s rips).map (fun n => n.Data.Time)) := by
  rw [values_eq, List.map_filterMap]
  have : ∀ t ∈ firstSeen ((scanned s rips).map (fun n => n.Data.Time)),
      Option.map (fun n : skiplist.Node R => n.Data.Time) (sumAt L (scanned s rips) t) = some t := by
    intro t ht
    rw [mem_firstSeen] at ht
    cases hs : sumAt L (scanned s rips) t with
    | none => exact absurd ht ((sumAt_eq_none_iff L _ t).1 hs)
    | some n => simp [sumAt_time L _ t n hs]
  rw [List.filterMap_congr this, List.filterMap_some]

/-- C1: every entry of the aggregated series of a group has as inRate the sum,
in scan order, of the inRates of all scanned samples of the members with the
entry's timestamp, and likewise for outRate; in a store filled by `Store.Add`
these are all samples with that timestamp in the series of the members. -/
theorem aggregated_rates_are_sums {R : Type} (L : Lib R) (s : Store R)
    (rips : List (List Char)) (n : skiplist.Node R)
    (hn : n ∈ Store.PrintGroupData.values L s rips) :
    (sumRates L (((scanned s rips).filter (fun m => decide (m.Data.Time = n.Data.Time))).map
          (fun m => m.Data.BandwidthIn)) = some n.Data.BandwidthIn ∧
        sumRates L (((scanned s rips).filter (fun m => decide (m.Data.Time = n.Data.Time))).map
          (fun m => m.Data.BandwidthOut)) = some n.Data.BandwidthOut) ∧
      (s.ScoredByTime →
        sumRates L (((memberNodes s rips).filter
            (fun m => decide (m.Data.Time = n.Data.Time))).map
              (fun m => m.Data.BandwidthIn)) = some n.Data.BandwidthIn ∧
          sumRates L (((memberNodes s rips).filter
            (fun m => decide (m.Data.Time = n.Data.Time))).map
              (fun m => m.Data.BandwidthOut)) = some n.Data.BandwidthOut) := by
  have hscan : sumRates L (((scanned s rips).filter
        (fun m => decide (m.Data.Time = n.Data.Time))).map
          (fun m => m.Data.BandwidthIn)) = some n.Data.BandwidthIn ∧
      sumRates L (((scanned s rips).filter (fun m => decide (m.Data.Time = n.Data.Time))).map
          (fun m => m.Data.BandwidthOut)) = some n.Data.BandwidthOut := by
    rw [values_eq, List.mem_filterMap] at hn
    obtain ⟨t, -, ht⟩ := hn
    have htime := sumAt_time L _ t n ht
    subst htime
    unfold sumAt at ht
    cases hf : (scanned s rips).filter (fun m => decide (m.Data.Time = n.Data.Time)) with
    | nil => rw [hf] at ht; cases ht
    | cons f rest =>
      rw [hf] at ht
      simp only [Option.some.injEq] at ht
      subst ht
      simp [sumRates]
  refine ⟨hscan, ?_⟩
  intro hs
  have hmem : n.Data.Time ∈ (scanned s rips).map (fun m => m.Data.Time) := by
    rw [← mem_firstSeen, ← values_times L s rips]
    exact List.mem_map.2 ⟨n, hn, rfl⟩
  obtain ⟨m, hm, hmt⟩ := List.mem_map.1 hmem
  obtain ⟨rip, sl, hg, hmsl, hlo, hhi⟩ := mem_scanned s rips m hm
  have hsc := hs (rip, sl) (GoMap.mem_of_get? _ _ _ hg) m hmsl
  rw [hmt] at hsc
  rw [← scanned_filter_time s rips n.Data.Time hs ⟨by rw [← hsc]; exact hlo, by rw [← hsc]; exact hhi⟩]
  exact hscan

theorem aggregated_rates_are_sums_witness :
    ((⟨100, ⟨"A".toList, 1, 0, 3000, 300, 0, ⟨100⟩⟩⟩ : skiplist.Node Int) ∈
        Store.PrintGroupData.values demo.lib exampleAB ["A".toList, "B".toList] ∧
      exampleAB.ScoredByTime) ∧
      sumRates demo.lib (((memberNodes exampleAB ["A".toList, "B".toList]).filter
          (fun m => decide (m.Data.Time = ⟨100⟩))).map (fun m => m.Data.BandwidthIn)) = some 3000 ∧
        sumRates demo.lib (((memberNodes exampleAB ["A".toList, "B".toList]).filter
          (fun m => decide (m.Data.Time = ⟨100⟩))).map (fun m => m.Data.BandwidthOut)) = some 300 :=
  ⟨⟨by decide, by unfold Store.ScoredByTime; decide⟩,
    (aggregated_rates_are_sums demo.lib exampleAB ["A".toList, "B".toList]
      ⟨100, ⟨"A".toList, 1, 0, 3000, 300, 0, ⟨100⟩⟩⟩ (by decide)).2
      (by unfold Store.ScoredByTime; decide)⟩

/-- The nodes scanned are the member nodes with a score from 0 to
`math.MaxFloat64`. -/
theorem scanned_eq_filter {R : Type} (s : Store R) (rips : List (List Char)) :
    scanned s rips =
      (memberNodes s rips).filter (fun n => decide (0 ≤ n.Score ∧ n.Score ≤ math.MaxFloat64)) := by
  induction rips with
  | nil => rfl
  | cons rip rips ih =>
    have e₁ : scanned s (rip :: rips) = scanned s [rip] ++ scanned s rips :=
      scanned_append s [rip] rips
    have e₂ : memberNodes s (rip :: rips) = s.series rip ++ memberNodes s rips := by
      simp [memberNodes, List.flatMap_cons]
    rw [e₁, e₂, List.filter_append, ih]
    congr 1
    unfold scanned Store.series
    simp only [List.flatMap_cons, List.flatMap_nil, List.append_nil]
    cases hg : GoMap.get? s.data rip with
    | none => rfl
    | some sl => rfl

/-- C2 as stated fails: the series of address `a` has samples at the Unix times
-1 and 5, and the aggregated series of a group with the member `a` has the
timestamp 5 only, because the range query of the aggregation starts at score
0. -/
theorem aggregation_omits_timestamp_before_epoch :
    (memberNodes exampleBeforeEpoch ["a".toList]).map (fun n => n.Data.Time.Unix) = [-1, 5] ∧
      (Store.PrintGroupData.values demo.lib exampleBeforeEpoch ["a".toList]).map
        (fun n => n.Data.Time.Unix) = [5] := by
  decide

/-- C2, amended: the timestamps of the aggregated series of a group are the
distinct timestamps of those samples of the member series, concatenated in the
order the members are listed, whose score lies from 0 to `math.MaxFloat64`, the
bounds of the range query, each once, in the order of first occurrence; when
every sample of the member series has such a score, they are the distinct
timestamps of the concatenation of the member series. -/
theorem aggregated_timestamps_in_range {R : Type} (L : Lib R) (s : Store R)
    (rips : List (List Char)) :
    (Store.PrintGroupData.values L s rips).map (fun n => n.Data.Time) =
        firstSeen
          (((memberNodes s rips).filter
            (fun n => decide (0 ≤ n.Score ∧ n.Score ≤ math.MaxFloat64))).map
              (fun n => n.Data.Time)) ∧
      ((Store.PrintGroupData.values L s rips).map (fun n => n.Data.Time)).Nodup ∧
      (∀ t, t ∈ (Store.PrintGroupData.values L s rips).map (fun n => n.Data.Time) ↔
        ∃ n ∈ memberNodes s rips, (0 ≤ n.Score ∧ n.Score ≤ math.MaxFloat64) ∧ n.Data.Time = t) ∧
      ((Store.PrintGroupData.values L s rips).map (fun n => n.Data.Time)).Sublist
        ((memberNodes s rips).map (fun n => n.Data.Time)) ∧
      ((∀ n ∈ memberNodes s rips, 0 ≤ n.Score ∧ n.Score ≤ math.MaxFloat64) →
        (Store.PrintGroupData.values L s rips).map (fun n => n.Data.Time) =
          firstSeen ((memberNodes s rips).map (fun n => n.Data.Time))) := by
  rw [values_times, scanned_eq_filter]
  refine ⟨rfl, nodup_firstSeen _, ?_, ?_, ?_⟩
  · intro t
    rw [mem_firstSeen, List.mem_map]
    constructor
    · rintro ⟨n, hn, rfl⟩
      rw [List.mem_filter, decide_eq_true_eq] at hn
      exact ⟨n, hn.1, hn.2, rfl⟩
    · rintro ⟨n, hn, hr, rfl⟩
      exact ⟨n, List.mem_filter.2 ⟨hn, decide_eq_true hr⟩, rfl⟩
  · exact (firstSeen_sublist _).trans ((List.filter_sublist _).map _)
  · intro hall
    rw [List.filter_eq_self.2 (fun n hn => decide_eq_true (hall n hn))]

theorem aggregated_timestamps_in_range_witness :
    (∀ n ∈ memberNodes exampleAB ["A".toList, "B".toList],
        0 ≤ n.Score ∧ n.Score ≤ math.MaxFloat64) ∧
      (memberNodes exampleAB ["A".toList, "B".toList]).map (fun n => n.Data.Time) =
        [⟨100⟩, ⟨100⟩, ⟨101⟩] ∧
      (Store.PrintGroupData.values demo.lib exampleAB ["A".toList, "B".toList]).map
          (fun n => n.Data.Time) =
        firstSeen ((memberNodes exampleAB ["A".toList, "B".toList]).map (fun n => n.Data.Time)) :=
  ⟨by decide, by decide,
    (aggregated_timestamps_in_range demo.lib exampleAB ["A".toList, "B".toList]).2.2.2.2
      (by decide)⟩

/-- The example of C1 and C2 evaluated: the two samples at time 100 merge into
one entry with inRate 30, the sample at time 101 stays an entry of its own. -/
theorem aggregation_example :
    Store.PrintGroupData.values demo.lib exampleAB ["A".toList, "B".toList] =
      [⟨100, ⟨"A".toList, 1, 0, 3000, 300, 0, ⟨100⟩⟩⟩, ⟨101, ⟨"B".toList, 2, 0, 500, 700, 0, ⟨101⟩⟩⟩] := by
  decide

/-! ## Rendering -/

theorem foldl_append_singleton {α β : Type} (f : α → β) (l : List α) (s : List β) :
    l.foldl (fun s a => s ++ [f a]) s = s ++ l.map f := by
  induction l generalizing s with
  | nil => simp
  | cons a l ih => simp [ih]

/-- The line of `genBandDataStringByValues` in closed form: the label, the
range marker if there is one, and one value field per node, joined by the
separator of the dialect. -/
theorem genBandDataStringByValues_eq {R : Type} (L : Lib R) (pf : List Char) (ipFormat : Nat)
    (ip pType : List Char) (values : List (skiplist.Node R)) :
    genBandDataStringByValues L pf ipFormat ip pType values =
      strings.Join
        ((if pf = PFCsv then ip else fmt.SprintfLeft ipFormat ip) ::
          (rangeMarker L values ++ values.map (genBandDataStringByValues.field L pType)))
        (if pf = PFCsv then ",".toList else " ".toList) := by
  unfold genBandDataStringByValues
  simp only [foldl_append_singleton]
  cases values with
  | nil => by_cases h : pf = PFCsv <;> simp [h, rangeMarker]
  | cons v0 rest => by_cases h : pf = PFCsv <;> simp [h, rangeMarker]

/-- C7: for a non-empty series of `n` samples, `genBandDataStringByValues` in
the dialect csv returns the comma-join of `n + 2` fields: the key unpadded, the
range marker made of the formatted times of the first and the last sample
joined by `-`, and one value field per sample in series order, which is the
inRate for the projection `in`, the outRate for `out`, and both joined by `|`
otherwise. -/
theorem csv_line_fields {R : Type} (L : Lib R) (ipFormat : Nat) (ip pType : List Char)
    (values : List (skiplist.Node R)) (h : values ≠ []) :
    genBandDataStringByValues L PFCsv ipFormat ip pType values =
        strings.Join
          (ip ::
            (L.Format (values.head h).Data.Time ++ "-".toList ++
              L.Format (values.getLast h).Data.Time) ::
            values.map (fun v =>
              if pType = TypeIn then L.Sprintf2f v.Data.BandwidthIn
              else if pType = TypeOut then L.Sprintf2f v.Data.BandwidthOut
              else L.Sprintf2f v.Data.BandwidthIn ++ "|".toList ++
                L.Sprintf2f v.Data.BandwidthOut))
          ",".toList ∧
      (ip ::
          (L.Format (values.head h).Data.Time ++ "-".toList ++
            L.Format (values.getLast h).Data.Time) ::
          values.map (fun v =>
            if pType = TypeIn then L.Sprintf2f v.Data.BandwidthIn
            else if pType = TypeOut then L.Sprintf2f v.Data.BandwidthOut
            else L.Sprintf2f v.Data.BandwidthIn ++ "|".toList ++
              L.Sprintf2f v.Data.BandwidthOut)).length = values.length + 2 := by
  refine ⟨?_, by simp⟩
  rw [genBandDataStringByValues_eq]
  cases values with
  | nil => exact absurd rfl h
  | cons v0 rest =>
    simp only [if_true, rangeMarker, List.head_cons, List.singleton_append]
    rfl

theorem csv_line_fields_witness :
    ([⟨100, ⟨"1.2.3.4".toList, 0, 0, 1000, 2000, 0, ⟨100⟩⟩⟩] : List (skiplist.Node Int)) ≠ [] ∧
      genBandDataStringByValues demo.lib PFCsv 15 "1.2.3.4".toList TypeIn
          [⟨100, ⟨"1.2.3.4".toList, 0, 0, 1000, 2000, 0, ⟨100⟩⟩⟩] =
        "1.2.3.4,01/01T00:01:40-01/01T00:01:40,10.00".toList :=
  ⟨by decide,
    (csv_line_fields demo.lib 15 "1.2.3.4".toList TypeIn
      [⟨100, ⟨"1.2.3.4".toList, 0, 0, 1000, 2000, 0, ⟨100⟩⟩⟩] (by decide)).1.trans (by decide)⟩

/-! ## Groups with members that have no series -/

theorem scanned_missing {R : Type} (s : Store R) (rips : List (List Char))
    (h : ∀ rip ∈ rips, GoMap.get? s.data rip = none) : scanned s rips = [] := by
  induction rips with
  | nil => rfl
  | cons rip rips ih =>
    have e : scanned s (rip :: rips) = scanned s [rip] ++ scanned s rips :=
      scanned_append s [rip] rips
    rw [e, ih (fun r hr => h r (List.mem_cons_of_mem _ hr))]
    simp [scanned, h rip (List.mem_cons_self _ _)]

theorem values_congr {R : Type} (L : Lib R) (s : Store R) (rips rips' : List (List Char))
    (h : scanned s rips = scanned s rips') :
    Store.PrintGroupData.values L s rips = Store.PrintGroupData.values L s rips' := by
  rw [values_eq, values_eq, h]

/-- C8 as stated fails for a group without members: its row is the
placeholder `norip`, and adding a member address that has no series changes
the row to the bare label. -/
theorem adding_missing_member_changes_empty_group :
    GoMap.get? (Store.empty : Store Int).data "9.9.9.9".toList = none ∧
      (Store.PrintGroupData.row demo.lib Store.empty TypeIn PFCsv
          ⟨"idc".toList, "g".toList, [], []⟩).2 = "g(idc),norip".toList ∧
      (Store.PrintGroupData.row demo.lib Store.empty TypeIn PFCsv
          ⟨"idc".toList, "g".toList, ["9.9.9.9".toList], []⟩).2 = "g(idc)".toList := by
  decide

/-- C8, amended: a group that has members, none of them with a series in the
store, gets as row its bare key label, unpadded in csv and padded to width 20
otherwise, with no range marker and no values; and for a group that has
members, adding member addresses without a series does not change the row. -/
theorem missing_members_are_skipped {R : Type} (L : Lib R) (s : Store R) (pType pf : List Char) :
    (∀ group : APIGroup, group.Rips ≠ [] →
        (∀ rip ∈ group.Rips, GoMap.get? s.data rip = none) →
        Store.PrintGroupData.row L s pType pf group =
          (group.Name ++ "(".toList ++ group.Idc_name ++ ")".toList,
            if pf = PFCsv then group.Name ++ "(".toList ++ group.Idc_name ++ ")".toList
            else fmt.SprintfLeft 20 (group.Name ++ "(".toList ++ group.Idc_name ++ ")".toList))) ∧
      ∀ (group : APIGroup) (pre extra post : List (List Char)),
        group.Rips = pre ++ post → group.Rips ≠ [] →
        (∀ rip ∈ extra, GoMap.get? s.data rip = none) →
        Store.PrintGroupData.row L s pType pf { group with Rips := pre ++ extra ++ post } =
          Store.PrintGroupData.row L s pType pf group := by
  constructor
  · intro group hne hmiss
    have hlen : ¬ group.Rips.length = 0 := fun h => hne (List.length_eq_zero.1 h)
    unfold Store.PrintGroupData.row
    simp only [hlen, if_false]
    have hv : Store.PrintGroupData.values L s group.Rips = [] := by
      rw [values_eq, scanned_missing s _ hmiss]
      rfl
    rw [hv, genBandDataStringByValues_eq]
    by_cases hpf : pf = PFCsv <;> simp [hpf, rangeMarker, strings.Join]
  · intro group pre extra post hrips hne hmiss
    have hlen : ¬ group.Rips.length = 0 := fun h => hne (List.length_eq_zero.1 h)
    have hne' : ¬ (pre ++ extra ++ post).length = 0 := by
      intro h
      apply hlen
      rw [hrips]
      simp only [List.length_append] at h ⊢
      omega
    unfold Store.PrintGroupData.row
    simp only [hlen, hne', if_false]
    have hv : Store.PrintGroupData.values L s (pre ++ extra ++ post) =
        Store.PrintGroupData.values L s group.Rips := by
      apply values_congr
      rw [hrips, scanned_append, scanned_append, scanned_append, scanned_missing s extra hmiss,
        List.append_nil]
    rw [hv]

theorem missing_members_are_skipped_witness :
    (((⟨"idc".toList, "g".toList, ["9.9.9.9".toList], []⟩ : APIGroup).Rips ≠ [] ∧
        ∀ rip ∈ (⟨"idc".toList, "g".toList, ["9.9.9.9".toList], []⟩ : APIGroup).Rips,
          GoMap.get? exampleAB.data rip = none) ∧
      Store.PrintGroupData.row demo.lib exampleAB TypeIn PFSpace
          ⟨"idc".toList, "g".toList, ["9.9.9.9".toList], []⟩ =
        ("g(idc)".toList, "g(idc)              ".toList)) ∧
      ((⟨"idc".toList, "g".toList, ["A".toList, "B".toList], []⟩ : APIGroup).Rips =
          ["A".toList] ++ ["B".toList] ∧
        (⟨"idc".toList, "g".toList, ["A".toList, "B".toList], []⟩ : APIGroup).Rips ≠ [] ∧
        ∀ rip ∈ ["9.9.9.9".toList, "8.8.8.8".toList], GoMap.get? exampleAB.data rip = none) ∧
      Store.PrintGroupData.row demo.lib exampleAB TypeIn PFCsv
          ⟨"idc".toList, "g".toList,
            ["A".toList] ++ ["9.9.9.9".toList, "8.8.8.8".toList] ++ ["B".toList], []⟩ =
        Store.PrintGroupData.row demo.lib exampleAB TypeIn PFCsv
          ⟨"idc".toList, "g".toList, ["A".toList, "B".toList], []⟩ :=
  ⟨⟨⟨by decide, by decide⟩,
      ((missing_members_are_skipped demo.lib exampleAB TypeIn PFSpace).1
        ⟨"idc".toList, "g".toList, ["9.9.9.9".toList], []⟩ (by decide) (by decide)).trans
        (by decide)⟩,
    ⟨by decide, by decide, by decide⟩,
    (missing_members_are_skipped demo.lib exampleAB TypeIn PFCsv).2
      ⟨"idc".toList, "g".toList, ["A".toList, "B".toList], []⟩
      ["A".toList] ["9.9.9.9".toList, "8.8.8.8".toList] ["B".toList]
      (by decide) (by decide) (by decide)⟩

/-! ## The rows of a report -/

theorem sort.Strings_sorted (a : List (List Char)) : (sort.Strings a).Sorted (fun x y => x ≤ y) :=
  List.sorted_insertionSort (fun x y : List Char => x ≤ y) a

theorem sort.Strings_perm (a : List (List Char)) : (sort.Strings a).Perm a :=
  List.perm_insertionSort (fun x y : List Char => x ≤ y) a

/-- The sorted names do not depend on the order in which they were collected. -/
theorem sort.Strings_of_perm (a b : List (List Char)) (h : a.Perm b) :
    sort.Strings a = sort.Strings b :=
  List.eq_of_perm_of_sorted (((sort.Strings_perm a).trans h).trans (sort.Strings_perm b).symm)
    (sort.Strings_sorted a) (sort.Strings_sorted b)

theorem collectRows_append {E : Type} (f : E → List Char × List Char) (es : List E) (e : E) :
    collectRows f (es ++ [e]) =
      ((collectRows f es).1 ++ [(f e).1], GoMap.set (collectRows f es).2 (f e).1 (f e).2) := by
  simp [collectRows, List.foldl_append]

theorem collectRows_fst {E : Type} (f : E → List Char × List Char) (es : List E) :
    (collectRows f es).1 = es.map (fun e => (f e).1) := by
  induction es using List.reverseRecOn with
  | nil => rfl
  | append_singleton es e ih => rw [collectRows_append, ih]; simp

/-- The text stored under a name is that of the last entry with that name. -/
theorem collectRows_get? {E : Type} (f : E → List Char × List Char) (es : List E)
    (k : List Char) :
    GoMap.get? (collectRows f es).2 k = GoMap.get? (es.map f).reverse k := by
  induction es using List.reverseRecOn with
  | nil => rfl
  | append_singleton es e ih =>
    rw [collectRows_append, List.map_append, List.reverse_append]
    simp only [List.map_cons, List.map_nil, List.reverse_cons, List.reverse_nil, List.nil_append,
      List.singleton_append]
    by_cases h : (f e).1 = k
    · subst h
      rw [GoMap.get?_set_self]
      simp [GoMap.get?]
    · rw [GoMap.get?_set_ne _ _ _ _ h, ih]
      rcases hf : f e with ⟨k', v'⟩
      rw [hf] at h
      simp only at h
      simp [GoMap.get?, h]

theorem GoMap.keys_map_reverse {E : Type} (f : E → List Char × List Char) (es : List E) :
    GoMap.keys (es.map f).reverse = (es.map (fun e => (f e).1)).reverse := by
  simp [GoMap.keys, List.map_reverse]

/-- Every name collected has a text stored under it, that of an entry with this
name. -/
theorem collectRows_get?_mem {E : Type} (f : E → List Char × List Char) (es : List E)
    (k : List Char) (hk : k ∈ (collectRows f es).1) :
    ∃ e ∈ es, (f e).1 = k ∧ GoMap.get? (collectRows f es).2 k = some (f e).2 := by
  rw [collectRows_fst] at hk
  rw [collectRows_get?]
  cases h : GoMap.get? (es.map f).reverse k with
  | none =>
    rw [GoMap.get?_eq_none_iff, GoMap.keys_map_reverse] at h
    exact absurd (List.mem_reverse.2 hk) h
  | some v =>
    have := GoMap.mem_of_get? _ _ _ h
    rw [List.mem_reverse, List.mem_map] at this
    obtain ⟨e, he, hfe⟩ := this
    exact ⟨e, he, by rw [hfe], by rw [hfe]⟩

/-- With one entry per name, the text stored under the name of an entry is the
text of that entry. -/
theorem collectRows_get?_nodup {E : Type} (f : E → List Char × List Char) (es : List E)
    (hn : (es.map (fun e => (f e).1)).Nodup) (e : E) (he : e ∈ es) :
    GoMap.get? (collectRows f es).2 (f e).1 = some (f e).2 := by
  rw [collectRows_get?]
  apply GoMap.get?_of_mem
  · rw [GoMap.keys_map_reverse]
    exact List.nodup_reverse.2 hn
  · exact List.mem_reverse.2 (List.mem_map.2 ⟨e, he, rfl⟩)

theorem rowsOf_forall₂ {E : Type} (f : E → List Char × List Char) (es : List E)
    (P : List Char → List Char → Prop) (hP : ∀ e ∈ es, P (f e).1 (f e).2) :
    List.Forall₂ P (sort.Strings (collectRows f es).1) (rowsOf (collectRows f es)) := by
  unfold rowsOf
  rw [List.forall₂_map_right_iff, List.forall₂_same]
  intro k hk
  have hk' : k ∈ (collectRows f es).1 := (sort.Strings_perm _).mem_iff.1 hk
  obtain ⟨e, he, hfe, hget⟩ := collectRows_get?_mem f es k hk'
  rw [hget, ← hfe]
  exact hP e he

/-- With one entry per name, the rows do not depend on the order of the
entries. -/
theorem rowsOf_perm {E : Type} (f f' : E → List Char × List Char) (es es' : List E)
    (hf : ∀ e ∈ es, f e = f' e) (hp : es.Perm es') (hn : (es.map (fun e => (f e).1)).Nodup) :
    rowsOf (collectRows f es) = rowsOf (collectRows f' es') := by
  have hmap : es.map f = es.map f' := List.map_congr_left hf
  have hlab : es.map (fun e => (f e).1) = es.map (fun e => (f' e).1) :=
    List.map_congr_left (fun e he => by rw [hf e he])
  have hperm : (es.map (fun e => (f e).1)).Perm (es'.map (fun e => (f' e).1)) := by
    rw [hlab]
    exact hp.map _
  unfold rowsOf
  rw [collectRows_fst, collectRows_fst, sort.Strings_of_perm _ _ hperm]
  apply List.map_congr_left
  intro k _
  rw [collectRows_get?, collectRows_get?, hmap]
  congr 1
  apply GoMap.get?_perm
  · rw [GoMap.keys_map_reverse, ← hlab]
    exact List.nodup_reverse.2 hn
  · exact ((List.reverse_perm _).trans (hp.map f')).trans (List.reverse_perm _).symm

theorem prefix_Join (x : List Char) (xs : List (List Char)) (sep : List Char) :
    x <+: strings.Join (x :: xs) sep := by
  cases xs with
  | nil => exact List.prefix_refl x
  | cons y ys =>
    unfold strings.Join
    rw [List.append_assoc]
    exact List.prefix_append x _

theorem prefix_SprintfLeft (w : Nat) (x : List Char) : x <+: fmt.SprintfLeft w x :=
  List.prefix_append x _

/-- A line of `genBandDataStringByValues` begins with its key label. -/
theorem prefix_genBandDataStringByValues {R : Type} (L : Lib R) (pf : List Char) (w : Nat)
    (ip pType : List Char) (values : List (skiplist.Node R)) :
    ip <+: genBandDataStringByValues L pf w ip pType values := by
  rw [genBandDataStringByValues_eq]
  by_cases h : pf = PFCsv
  · simp only [h, if_true]
    exact prefix_Join _ _ _
  · simp only [h, if_false]
    exact (prefix_SprintfLeft w ip).trans (prefix_Join _ _ _)

theorem PrintIPData_eq {R : Type} (L : Lib R) (s : Store R) (pType pf : List Char) :
    s.PrintIPData L pType pf =
      ("-------- ip band data(".toList ++ pType ++ ") --------".toList) ::
        rowsOf (collectRows (Store.PrintIPData.row L pType pf) s.data) := rfl

/-- With status 200 and at least one idc in the response, `Store.PrintIdcData`
does not panic. -/
theorem PrintIdcData_returns {R : Type} (L : Lib R) (s : Store R) (idcs : APIIdcRes)
    (pType pf : List Char) (hcode : idcs.base.Code = 200) (hitems : idcs.Items ≠ []) :
    ∃ out, s.PrintIdcData L (some idcs) pType pf = some out := by
  have hlen : ¬ idcs.Items.length = 0 := fun h => hitems (List.length_eq_zero.1 h)
  unfold Store.PrintIdcData
  simp only [hcode, ne_eq, not_true_eq_false, if_false, hlen]
  exact ⟨_, rfl⟩

/-- With status 200 and at least one group in the response,
`Store.PrintGroupData` does not panic. -/
theorem PrintGroupData_returns {R : Type} (L : Lib R) (s : Store R) (groups : APIGroupIpsRes)
    (pType pf : List Char) (hcode : groups.base.Code = 200) (hdata : groups.Data ≠ []) :
    ∃ out, s.PrintGroupData L (some groups) pType pf = some out := by
  have hlen : ¬ groups.Data.length = 0 := fun h => hdata (List.length_eq_zero.1 h)
  unfold Store.PrintGroupData
  simp only [hcode, ne_eq, not_true_eq_false, if_false, hlen]
  exact ⟨_, rfl⟩

theorem PrintIdcData_eq {R : Type} (L : Lib R) (s : Store R) (idcs : APIIdcRes)
    (pType pf : List Char) (out : List (List Char))
    (h : s.PrintIdcData L (some idcs) pType pf = some out) :
    out = ("-------- idc band data(".toList ++ pType ++ ") --------".toList) ::
      rowsOf (collectRows (Store.PrintIdcData.row L s pType pf) idcs.Items) := by
  unfold Store.PrintIdcData at h
  simp only at h
  split at h
  · cases h
  · split at h
    · cases h
    · simp only [Option.some.injEq] at h
      rw [← h]
      rfl

theorem PrintGroupData_eq {R : Type} (L : Lib R) (s : Store R) (groups : APIGroupIpsRes)
    (pType pf : List Char) (out : List (List Char))
    (h : s.PrintGroupData L (some groups) pType pf = some out) :
    out = ("-------- group band data(".toList ++ pType ++ ") --------".toList) ::
      rowsOf (collectRows (Store.PrintGroupData.row L s pType pf) groups.Data) := by
  unfold Store.PrintGroupData at h
  simp only at h
  split at h
  · cases h
  · split at h
    · cases h
    · simp only [Option.some.injEq] at h
      rw [← h]
      rfl

theorem prefix_PrintIdcData_row {R : Type} (L : Lib R) (s : Store R) (pType pf : List Char)
    (idc : APIIdcItem) :
    (Store.PrintIdcData.row L s pType pf idc).1 <+: (Store.PrintIdcData.row L s pType pf idc).2 := by
  unfold Store.PrintIdcData.row
  simp only
  split
  · split
    · exact List.prefix_append _ _
    · exact (prefix_SprintfLeft 25 _).trans (List.prefix_append _ _)
  · split
    · split
      · exact List.prefix_append _ _
      · exact (prefix_SprintfLeft 25 _).trans (List.prefix_append _ _)
    · exact prefix_genBandDataStringByValues _ _ _ _ _ _

theorem prefix_PrintGroupData_row {R : Type} (L : Lib R) (s : Store R) (pType pf : List Char)
    (group : APIGroup) :
    (Store.PrintGroupData.row L s pType pf group).1 <+:
      (Store.PrintGroupData.row L s pType pf group).2 := by
  unfold Store.PrintGroupData.row
  simp only
  split
  · split
    · exact List.prefix_append _ _
    · exact (prefix_SprintfLeft 20 _).trans (List.prefix_append _ _)
  · exact prefix_genBandDataStringByValues _ _ _ _ _ _

theorem PrintIdcData_row_fst {R : Type} (L : Lib R) (s : Store R) (pType pf : List Char)
    (idc : APIIdcItem) :
    (Store.PrintIdcData.row L s pType pf idc).1 =
      idc.Name ++ "(".toList ++ idc.Snmp_ip ++ ")".toList := by
  unfold Store.PrintIdcData.row
  simp only
  split
  · split <;> rfl
  · split
    · split <;> rfl
    · rfl

theorem PrintGroupData_row_fst {R : Type} (L : Lib R) (s : Store R) (pType pf : List Char)
    (group : APIGroup) :
    (Store.PrintGroupData.row L s pType pf group).1 =
      group.Name ++ "(".toList ++ group.Idc_name ++ ")".toList := by
  unfold Store.PrintGroupData.row
  simp only
  split
  · split <;> rfl
  · rfl

theorem sortedRows_of_collect {E : Type} (f : E → List Char × List Char) (es : List E)
    (header : List Char) (collected : List (List Char))
    (hc : es.map (fun e => (f e).1) = collected) (hP : ∀ e ∈ es, (f e).1 <+: (f e).2) :
    SortedRows collected (header :: rowsOf (collectRows f es)) := by
  refine ⟨header, sort.Strings (collectRows f es).1, rowsOf (collectRows f es), rfl,
    sort.Strings_sorted _, ?_, rowsOf_forall₂ f es _ hP⟩
  rw [← hc, ← collectRows_fst]
  exact sort.Strings_perm _

theorem PrintIdcData_row_congr {R : Type} (L : Lib R) (s s' : Store R) (pType pf : List Char)
    (h : ∀ k, GoMap.get? s.data k = GoMap.get? s'.data k) (idc : APIIdcItem) :
    Store.PrintIdcData.row L s pType pf idc = Store.PrintIdcData.row L s' pType pf idc := by
  unfold Store.PrintIdcData.row
  rw [h]

theorem PrintGroupData_row_congr {R : Type} (L : Lib R) (s s' : Store R) (pType pf : List Char)
    (h : ∀ k, GoMap.get? s.data k = GoMap.get? s'.data k) (group : APIGroup) :
    Store.PrintGroupData.row L s pType pf group = Store.PrintGroupData.row L s' pType pf group := by
  have e : Store.PrintGroupData.sumRip L s = Store.PrintGroupData.sumRip L s' := by
    funext st rip
    unfold Store.PrintGroupData.sumRip
    rw [h]
  unfold Store.PrintGroupData.row Store.PrintGroupData.values
  rw [e]

/-- C9 as stated fails for a directory response that repeats a label: of two
groups named `g(idc)`, with the members `A` and `B`, the one listed last
overwrites the text stored under the label, so both rows show it, and swapping
the two entries changes the report. -/
theorem directory_order_changes_repeated_label :
    exampleRepeatedLabel.Data.Perm exampleRepeatedLabelSwapped.Data ∧
      exampleAB.PrintGroupData demo.lib (some exampleRepeatedLabel) TypeIn PFCsv =
        some ["-------- group band data(in) --------".toList,
          "g(idc),01/01T00:01:40-01/01T00:01:41,20.00,5.00".toList,
          "g(idc),01/01T00:01:40-01/01T00:01:41,20.00,5.00".toList] ∧
      exampleAB.PrintGroupData demo.lib (some exampleRepeatedLabelSwapped) TypeIn PFCsv =
        some ["-------- group band data(in) --------".toList,
          "g(idc),01/01T00:01:40-01/01T00:01:40,10.00".toList,
          "g(idc),01/01T00:01:40-01/01T00:01:40,10.00".toList] :=
  ⟨List.Perm.swap _ _ _, by decide, by decide⟩

/-- C9, amended: in each of the three reports the lines after the header are
one row per key label collected, in ascending lexicographic order of the
labels, each row beginning with its label; the report does not depend on the
iteration order of the store map, and when the entries of the directory
response have distinct labels it does not depend on their order. -/
theorem report_rows_sorted {R : Type} (L : Lib R) (s : Store R) (pType pf : List Char) :
    SortedRows (GoMap.keys s.data) (s.PrintIPData L pType pf) ∧
      (∀ idcs : APIIdcRes, idcs.base.Code = 200 → idcs.Items ≠ [] →
        ∃ out, s.PrintIdcData L (some idcs) pType pf = some out ∧
          SortedRows
            (idcs.Items.map (fun idc => idc.Name ++ "(".toList ++ idc.Snmp_ip ++ ")".toList))
            out) ∧
      (∀ groups : APIGroupIpsRes, groups.base.Code = 200 → groups.Data ≠ [] →
        ∃ out, s.PrintGroupData L (some groups) pType pf = some out ∧
          SortedRows
            (groups.Data.map (fun g => g.Name ++ "(".toList ++ g.Idc_name ++ ")".toList))
            out) ∧
      ∀ s' : Store R, (GoMap.keys s.data).Nodup → s.data.Perm s'.data →
        s'.PrintIPData L pType pf = s.PrintIPData L pType pf ∧
          (∀ idcs idcs' : APIIdcRes, idcs.base = idcs'.base → idcs.Items.Perm idcs'.Items →
            (idcs.Items.map
              (fun idc => idc.Name ++ "(".toList ++ idc.Snmp_ip ++ ")".toList)).Nodup →
            s'.PrintIdcData L (some idcs') pType pf = s.PrintIdcData L (some idcs) pType pf) ∧
          ∀ groups groups' : APIGroupIpsRes, groups.base = groups'.base →
            groups.Data.Perm groups'.Data →
            (groups.Data.map
              (fun g => g.Name ++ "(".toList ++ g.Idc_name ++ ")".toList)).Nodup →
            s'.PrintGroupData L (some groups') pType pf =
              s.PrintGroupData L (some groups) pType pf := by
  refine ⟨?_, ?_, ?_, ?_⟩
  · rw [PrintIPData_eq]
    exact sortedRows_of_collect _ _ _ _ rfl
      (fun e _ => prefix_genBandDataStringByValues _ _ _ _ _ _)
  · intro idcs hcode hitems
    obtain ⟨out, h⟩ := PrintIdcData_returns L s idcs pType pf hcode hitems
    refine ⟨out, h, ?_⟩
    rw [PrintIdcData_eq L s idcs pType pf out h]
    exact sortedRows_of_collect _ _ _ _
      (List.map_congr_left (fun e _ => PrintIdcData_row_fst L s pType pf e))
      (fun e _ => prefix_PrintIdcData_row L s pType pf e)
  · intro groups hcode hdata
    obtain ⟨out, h⟩ := PrintGroupData_returns L s groups pType pf hcode hdata
    refine ⟨out, h, ?_⟩
    rw [PrintGroupData_eq L s groups pType pf out h]
    exact sortedRows_of_collect _ _ _ _
      (List.map_congr_left (fun e _ => PrintGroupData_row_fst L s pType pf e))
      (fun e _ => prefix_PrintGroupData_row L s pType pf e)
  · intro s' hn hp
    have hget : ∀ k, GoMap.get? s.data k = GoMap.get? s'.data k :=
      fun k => GoMap.get?_perm _ _ k hn hp
    refine ⟨?_, ?_, ?_⟩
    · rw [PrintIPData_eq, PrintIPData_eq]
      congr 1
      exact (rowsOf_perm (Store.PrintIPData.row L pType pf) (Store.PrintIPData.row L pType pf)
        s.data s'.data (fun _ _ => rfl) hp hn).symm
    · intro idcs idcs' hbase hperm hnd
      unfold Store.PrintIdcData
      simp only [← hbase, ← hperm.length_eq]
      split
      · rfl
      · split
        · rfl
        · congr 2
          refine (rowsOf_perm _ _ _ _ (fun e _ => PrintIdcData_row_congr L s s' pType pf hget e)
            hperm ?_).symm
          rw [List.map_congr_left (fun e _ => PrintIdcData_row_fst L s pType pf e)]
          exact hnd
    · intro groups groups' hbase hperm hnd
      unfold Store.PrintGroupData
      simp only [← hbase, ← hperm.length_eq]
      split
      · rfl
      · split
        · rfl
        · congr 2
          refine (rowsOf_perm _ _ _ _ (fun e _ => PrintGroupData_row_congr L s s' pType pf hget e)
            hperm ?_).symm
          rw [List.map_congr_left (fun e _ => PrintGroupData_row_fst L s pType pf e)]
          exact hnd

theorem report_rows_sorted_witness :
    ((GoMap.keys exampleAB.data).Nodup ∧ exampleAB.data.Perm exampleBA.data) ∧
      exampleAB.PrintIPData demo.lib TypeIn PFCsv =
        ["-------- ip band data(in) --------".toList,
          "A,01/01T00:01:40-01/01T00:01:40,10.00".toList,
          "B,01/01T00:01:40-01/01T00:01:41,20.00,5.00".toList] ∧
      exampleBA.PrintIPData demo.lib TypeIn PFCsv = exampleAB.PrintIPData demo.lib TypeIn PFCsv :=
  ⟨⟨by decide, List.reverse_perm _ |>.symm⟩, by decide,
    ((report_rows_sorted demo.lib exampleAB TypeIn PFCsv).2.2.2 exampleBA (by decide)
      (List.reverse_perm _).symm).1⟩

/-- C4 as stated fails: the address `a` has two samples, and its line in the
address report has a value field for the one at time 5 only, because the range
query starts at score 0 and the sample at time -1 has score -1. -/
theorem address_report_omits_sample_before_epoch :
    (exampleBeforeEpoch.series "a".toList).map (fun n => n.Data.BandwidthIn) = [100, 300] ∧
      exampleBeforeEpoch.PrintIPData demo.lib TypeIn PFCsv =
        ["-------- ip band data(in) --------".toList,
          "a,01/01T00:00:05-01/01T00:00:05,3.00".toList] := by
  decide

/-- C4, amended: for a store and every address key in it, the line of the
address report for that key has one value field for every sample of that
address whose score, the `float64` of the Unix seconds of its timestamp, lies
from 0 to `math.MaxFloat64`, the bounds passed to the range query; the samples
with a negative score are not rendered. -/
theorem address_report_renders_range {R : Type} (L : Lib R) (s : Store R) (pType pf : List Char)
    (hn : (GoMap.keys s.data).Nodup) :
    s.PrintIPData L pType pf =
      ("-------- ip band data(".toList ++ pType ++ ") --------".toList) ::
        (sort.Strings (GoMap.keys s.data)).map (fun ip =>
          strings.Join
            ((if pf = PFCsv then ip else fmt.SprintfLeft 15 ip) ::
              (rangeMarker L
                  ((s.series ip).filter
                    (fun n => decide (0 ≤ n.Score ∧ n.Score ≤ math.MaxFloat64))) ++
                ((s.series ip).filter
                    (fun n => decide (0 ≤ n.Score ∧ n.Score ≤ math.MaxFloat64))).map
                  (genBandDataStringByValues.field L pType)))
            (if pf = PFCsv then ",".toList else " ".toList)) := by
  rw [PrintIPData_eq]
  congr 1
  unfold rowsOf
  rw [collectRows_fst]
  have hk : s.data.map (fun e => (Store.PrintIPData.row L pType pf e).1) = GoMap.keys s.data := rfl
  rw [hk]
  apply List.map_congr_left
  intro ip hip
  have hip' : ip ∈ GoMap.keys s.data := (sort.Strings_perm _).mem_iff.1 hip
  unfold GoMap.keys at hip'
  rw [List.mem_map] at hip'
  obtain ⟨e, he, hfst⟩ := hip'
  have hget := collectRows_get?_nodup (Store.PrintIPData.row L pType pf) s.data hn e he
  have hser : s.series ip = e.2 := by
    unfold Store.series
    rw [GoMap.get?_of_mem s.data ip e.2 hn (by rw [← hfst]; exact he)]
    rfl
  have h1 : (Store.PrintIPData.row L pType pf e).1 = ip := hfst
  rw [h1] at hget
  rw [hget, hser]
  simp only [Option.getD_some, Store.PrintIPData.row, genBandDataString,
    skiplist.Skiplist.RangeByScore, genBandDataStringByValues_eq, hfst]

theorem address_report_renders_range_witness :
    (GoMap.keys exampleBeforeEpoch.data).Nodup ∧
      exampleBeforeEpoch.PrintIPData demo.lib TypeAll PFSpace =
        ["-------- ip band data(all) --------".toList,
          "a               01/01T00:00:05-01/01T00:00:05 3.00|4.00".toList] :=
  ⟨by decide,
    (address_report_renders_range demo.lib exampleBeforeEpoch TypeAll PFSpace (by decide)).trans
      (by decide)⟩

/-! ## The pointer aggregation refines the aggregation on values -/

theorem Ptr.get?_rep {R : Type} (heap0 heap : Ptr.Heap R) (m : List (Time × Ptr.Node))
    (m' : List (Time × skiplist.Node R)) (h : List.Forall₂ (Ptr.Rep heap0 heap) m m') (k : Time) :
    (GoMap.get? m k = none ∧ GoMap.get? m' k = none) ∨
      ∃ pn n, GoMap.get? m k = some pn ∧ GoMap.get? m' k = some n ∧
        Ptr.Rep heap0 heap (k, pn) (k, n) := by
  induction h with
  | nil => exact Or.inl ⟨rfl, rfl⟩
  | @cons p q l l' hpq _ ih =>
    obtain ⟨kp, pn⟩ := p
    obtain ⟨kq, n⟩ := q
    have hk : kp = kq := hpq.1
    subst hk
    by_cases hkk : kp = k
    · subst hkk
      exact Or.inr ⟨pn, n, by simp [GoMap.get?], by simp [GoMap.get?], hpq⟩
    · simpa [GoMap.get?, hkk] using ih

theorem Ptr.rep_lt {R : Type} (heap0 heap : Ptr.Heap R) (m : List (Time × Ptr.Node))
    (m' : List (Time × skiplist.Node R)) (h : List.Forall₂ (Ptr.Rep heap0 heap) m m') :
    ∀ p ∈ m, heap0.length ≤ p.2.Data ∧ p.2.Data < heap.length := by
  induction h with
  | nil => intro p hp; cases hp
  | @cons p q l l' hpq _ ih =>
    intro x hx
    rcases List.mem_cons.1 hx with rfl | hx'
    · refine ⟨hpq.2.2.1, ?_⟩
      have := hpq.2.2.2
      by_contra hc
      rw [List.getElem?_eq_none (not_lt.1 hc)] at this
      cases this
    · exact ih x hx'

theorem Ptr.forall₂_imp_mem {α β : Type} (Q Q' : α → β → Prop) (l : List α) (l' : List β)
    (h : List.Forall₂ Q l l') (himp : ∀ a ∈ l, ∀ b, Q a b → Q' a b) : List.Forall₂ Q' l l' := by
  induction h with
  | nil => exact List.Forall₂.nil
  | @cons a b l l' hab _ ih =>
    exact List.Forall₂.cons (himp a (List.mem_cons_self _ _) b hab)
      (ih (fun x hx => himp x (List.mem_cons_of_mem _ hx)))

/-- Updating the value map under a key that is present corresponds to leaving
the pointer map as it is and changing the cell of the pointer found. -/
theorem Ptr.forall₂_set_right {R : Type} (heap0 heap heap' : Ptr.Heap R)
    (m : List (Time × Ptr.Node)) (m' : List (Time × skiplist.Node R))
    (h : List.Forall₂ (Ptr.Rep heap0 heap) m m') (k : Time) (pn : Ptr.Node)
    (n' : skiplist.Node R) (hget : GoMap.get? m k = some pn)
    (hnd : (m.map (fun p => p.2.Data)).Nodup)
    (hother : ∀ i, i ≠ pn.Data → heap'[i]? = heap[i]?)
    (hnew : Ptr.Rep heap0 heap' (k, pn) (k, n')) :
    List.Forall₂ (Ptr.Rep heap0 heap') m (GoMap.set m' k n') := by
  induction h with
  | nil => simp [GoMap.get?] at hget
  | @cons p q l l' hpq hl ih =>
    obtain ⟨kp, pn₀⟩ := p
    obtain ⟨kq, n₀⟩ := q
    have hk : kp = kq := hpq.1
    subst hk
    simp only [List.map_cons, List.nodup_cons] at hnd
    by_cases hkk : kp = k
    · subst hkk
      simp only [GoMap.get?, if_true, Option.some.injEq] at hget
      subst hget
      simp only [GoMap.set, if_true]
      refine List.Forall₂.cons hnew (Ptr.forall₂_imp_mem _ _ _ _ hl ?_)
      intro a ha b hab
      have hne : a.2.Data ≠ pn₀.Data := by
        intro e
        exact hnd.1 (List.mem_map.2 ⟨a, ha, e⟩)
      exact ⟨hab.1, hab.2.1, hab.2.2.1, by rw [hother _ hne]; exact hab.2.2.2⟩
    · simp only [GoMap.get?, hkk, if_false] at hget
      simp only [GoMap.set, hkk, if_false]
      refine List.Forall₂.cons ?_ (ih hget hnd.2)
      have hne : pn₀.Data ≠ pn.Data := by
        intro e
        have hmem := GoMap.mem_of_get? l k pn hget
        exact hnd.1 (List.mem_map.2 ⟨(k, pn), hmem, e.symm⟩)
      exact ⟨hpq.1, hpq.2.1, hpq.2.2.1, by rw [hother _ hne]; exact hpq.2.2.2⟩

/-- One step of the aggregation: on a node whose pointer refers to `item` in
the initial heap, the pointer loop does not panic and its new state represents
the new state of the value loop. -/
theorem Ptr.sim_sumOne {R : Type} (L : Lib R) (heap0 : Ptr.Heap R) (pst : Ptr.SumState R)
    (st : CollectBandLog.SumState R) (hsim : Ptr.Sim heap0 pst st) (pv : Ptr.Node)
    (item : BandItem R) (hitem : heap0[pv.Data]? = some item) :
    ∃ pst', Ptr.sumOne L pst pv = some pst' ∧
      Ptr.Sim heap0 pst' (Store.PrintGroupData.sumOne L st ⟨pv.Score, item⟩) := by
  obtain ⟨⟨extra, hheap⟩, htp, hrep, hnd⟩ := hsim
  have hpv : pv.Data < heap0.length := by
    by_contra hc
    rw [List.getElem?_eq_none (not_lt.1 hc)] at hitem
    cases hitem
  have hitem' : pst.heap[pv.Data]? = some item := by
    rw [hheap, List.getElem?_append_left hpv]
    exact hitem
  unfold Ptr.sumOne Store.PrintGroupData.sumOne
  simp only [hitem']
  rcases Ptr.get?_rep heap0 pst.heap _ _ hrep item.Time with ⟨h₁, h₂⟩ | ⟨pn, n, h₁, h₂, hr⟩
  · -- a timestamp seen for the first time
    simp only [h₁, h₂]
    refine ⟨_, rfl, ⟨extra ++ [item], by simp [hheap]⟩, by simp [htp], ?_, ?_⟩
    · simp only
      rw [GoMap.set_of_get?_none _ _ _ h₁, GoMap.set_of_get?_none _ _ _ h₂]
      refine List.rel_append (Ptr.forall₂_imp_mem _ _ _ _ hrep ?_) ?_
      · intro a ha b hab
        have hlt := (Ptr.rep_lt heap0 pst.heap _ _ hrep a ha).2
        exact ⟨hab.1, hab.2.1, hab.2.2.1, by
          rw [List.getElem?_append_left hlt]; exact hab.2.2.2⟩
      · refine List.Forall₂.cons ⟨rfl, rfl, ?_, ?_⟩ List.Forall₂.nil
        · simp only [hheap, List.length_append]
          omega
        · simp
    · simp only
      rw [GoMap.set_of_get?_none _ _ _ h₁, List.map_append, List.nodup_append]
      refine ⟨hnd, by simp, ?_⟩
      intro a ha hb
      simp only [List.map_cons, List.map_nil, List.mem_singleton] at hb
      rw [List.mem_map] at ha
      obtain ⟨p, hp, rfl⟩ := ha
      have := (Ptr.rep_lt heap0 pst.heap _ _ hrep p hp).2
      omega
  · -- a timestamp seen before: the rates are added into the copy
    obtain ⟨-, hscore, hge, hcell⟩ := hr
    simp only at hscore hge hcell
    have hne : pv.Data ≠ pn.Data := by omega
    have hlt : pn.Data < pst.heap.length := by
      by_contra hc
      rw [List.getElem?_eq_none (not_lt.1 hc)] at hcell
      cases hcell
    simp only [h₁, h₂, hcell, hitem']
    have e1 : (pst.heap.set pn.Data
        { n.Data with BandwidthIn := L.add n.Data.BandwidthIn item.BandwidthIn })[pn.Data]? =
        some { n.Data with BandwidthIn := L.add n.Data.BandwidthIn item.BandwidthIn } := by
      rw [List.getElem?_set_self hlt]
    have e2 : (pst.heap.set pn.Data
        { n.Data with BandwidthIn := L.add n.Data.BandwidthIn item.BandwidthIn })[pv.Data]? =
        some item := by
      rw [List.getElem?_set_ne (Ne.symm hne)]
      exact hitem'
    simp only [e1, e2]
    refine ⟨_, rfl, ?_, htp, ?_, hnd⟩
    · refine ⟨(extra.set (pn.Data - heap0.length)
          { n.Data with BandwidthIn := L.add n.Data.BandwidthIn item.BandwidthIn }).set
          (pn.Data - heap0.length)
          { n.Data with
            BandwidthIn := L.add n.Data.BandwidthIn item.BandwidthIn
            BandwidthOut := L.add n.Data.BandwidthOut item.BandwidthOut }, ?_⟩
      simp only [hheap]
      rw [List.set_append_right _ _ hge, List.set_append_right _ _ hge]
    · refine Ptr.forall₂_set_right heap0 pst.heap _ _ _ hrep item.Time pn _ h₁ hnd ?_ ?_
      · intro i hi
        rw [List.getElem?_set_ne (Ne.symm hi), List.getElem?_set_ne (Ne.symm hi)]
      · refine ⟨rfl, hscore, hge, ?_⟩
        simp only
        rw [List.getElem?_set_self (by simpa using hlt)]

theorem Ptr.nodes_cons {R : Type} (heap : Ptr.Heap R) (pv : Ptr.Node) (sl : List Ptr.Node)
    (h : pv.Data < heap.length) :
    Ptr.nodes heap (pv :: sl) = ⟨pv.Score, heap[pv.Data]⟩ :: Ptr.nodes heap sl := by
  simp [Ptr.nodes, List.filterMap_cons, List.getElem?_eq_getElem h]

theorem Ptr.sim_loop {R : Type} (L : Lib R) (heap0 : Ptr.Heap R) (pvs : List Ptr.Node)
    (hv : ∀ pv ∈ pvs, pv.Data < heap0.length) (pst : Ptr.SumState R)
    (st : CollectBandLog.SumState R) (hsim : Ptr.Sim heap0 pst st) :
    ∃ pst', Ptr.loop (Ptr.sumOne L) pst pvs = some pst' ∧
      Ptr.Sim heap0 pst' ((Ptr.nodes heap0 pvs).foldl (Store.PrintGroupData.sumOne L) st) := by
  induction pvs generalizing pst st with
  | nil => exact ⟨pst, rfl, hsim⟩
  | cons pv pvs ih =>
    have hlt := hv pv (List.mem_cons_self _ _)
    obtain ⟨pst₁, h₁, hsim₁⟩ := Ptr.sim_sumOne L heap0 pst st hsim pv heap0[pv.Data]
      (List.getElem?_eq_getElem hlt)
    obtain ⟨pst₂, h₂, hsim₂⟩ := ih (fun x hx => hv x (List.mem_cons_of_mem _ hx)) pst₁ _ hsim₁
    refine ⟨pst₂, ?_, ?_⟩
    · simp only [Ptr.loop, h₁, h₂]
    · rw [Ptr.nodes_cons heap0 pv pvs hlt, List.foldl_cons]
      exact hsim₂

theorem Ptr.get?_deref {R : Type} (heap : Ptr.Heap R) (s : Ptr.Store) (k : List Char) :
    GoMap.get? (Ptr.Store.deref heap s).data k = (GoMap.get? s.data k).map (Ptr.nodes heap) := by
  unfold Ptr.Store.deref
  simp only
  induction s.data with
  | nil => rfl
  | cons e m ih =>
    obtain ⟨k', sl⟩ := e
    by_cases hk : k' = k
    · simp [GoMap.get?, hk, Ptr.nodes]
    · simp [GoMap.get?, hk, ih]

theorem Ptr.nodes_RangeByScore {R : Type} (heap : Ptr.Heap R) (sl : List Ptr.Node)
    (min max : Int) (hv : ∀ n ∈ sl, n.Data < heap.length) :
    skiplist.Skiplist.RangeByScore (Ptr.nodes heap sl) min max =
      Ptr.nodes heap (Ptr.RangeByScore sl min max) := by
  induction sl with
  | nil => rfl
  | cons n sl ih =>
    have hlt := hv n (List.mem_cons_self _ _)
    have ih' := ih (fun x hx => hv x (List.mem_cons_of_mem _ hx))
    rw [Ptr.nodes_cons heap n sl hlt]
    unfold skiplist.Skiplist.RangeByScore Ptr.RangeByScore at ih' ⊢
    rw [List.filter_cons, List.filter_cons]
    by_cases hc : min ≤ n.Score ∧ n.Score ≤ max
    · simp only [hc, and_self, decide_True, if_true]
      rw [Ptr.nodes_cons heap n _ hlt, ih']
    · simp only [hc, decide_False, Bool.false_eq_true, if_false]
      exact ih'

theorem Ptr.sim_sumRip {R : Type} (L : Lib R) (heap0 : Ptr.Heap R) (s : Ptr.Store)
    (hv : Ptr.Store.Valid heap0 s) (rip : List Char) (pst : Ptr.SumState R)
    (st : CollectBandLog.SumState R) (hsim : Ptr.Sim heap0 pst st) :
    ∃ pst', Ptr.sumRip L s pst rip = some pst' ∧
      Ptr.Sim heap0 pst' (Store.PrintGroupData.sumRip L (Ptr.Store.deref heap0 s) st rip) := by
  unfold Ptr.sumRip Store.PrintGroupData.sumRip
  rw [Ptr.get?_deref]
  cases hg : GoMap.get? s.data rip with
  | none => exact ⟨pst, rfl, hsim⟩
  | some sl =>
    have hsl : ∀ n ∈ sl, n.Data < heap0.length := hv (rip, sl) (GoMap.mem_of_get? _ _ _ hg)
    simp only [Option.map_some']
    rw [Ptr.nodes_RangeByScore heap0 sl _ _ hsl]
    refine Ptr.sim_loop L heap0 _ ?_ pst st hsim
    intro pv hpv
    exact hsl pv (List.mem_of_mem_filter hpv)

theorem Ptr.sim_rips {R : Type} (L : Lib R) (heap0 : Ptr.Heap R) (s : Ptr.Store)
    (hv : Ptr.Store.Valid heap0 s) (rips : List (List Char)) (pst : Ptr.SumState R)
    (st : CollectBandLog.SumState R) (hsim : Ptr.Sim heap0 pst st) :
    ∃ pst', Ptr.loop (Ptr.sumRip L s) pst rips = some pst' ∧
      Ptr.Sim heap0 pst'
        (rips.foldl (Store.PrintGroupData.sumRip L (Ptr.Store.deref heap0 s)) st) := by
  induction rips generalizing pst st with
  | nil => exact ⟨pst, rfl, hsim⟩
  | cons rip rips ih =>
    obtain ⟨pst₁, h₁, hsim₁⟩ := Ptr.sim_sumRip L heap0 s hv rip pst st hsim
    obtain ⟨pst₂, h₂, hsim₂⟩ := ih pst₁ _ hsim₁
    exact ⟨pst₂, by simp only [Ptr.loop, h₁, h₂], by rw [List.foldl_cons]; exact hsim₂⟩

/-- Reading the aggregated pointer nodes from the heap gives the aggregated
series of the value loop. -/
theorem Ptr.load_values {R : Type} (heap0 heap : Ptr.Heap R) (m : List (Time × Ptr.Node))
    (m' : List (Time × skiplist.Node R)) (h : List.Forall₂ (Ptr.Rep heap0 heap) m m')
    (ts : List Time) :
    Ptr.load heap (ts.filterMap (fun t => GoMap.get? m t)) =
      some (ts.filterMap (fun t => GoMap.get? m' t)) := by
  induction ts with
  | nil => rfl
  | cons t ts ih =>
    rcases Ptr.get?_rep heap0 heap m m' h t with ⟨h₁, h₂⟩ | ⟨pn, n, h₁, h₂, hr⟩
    · simp only [List.filterMap_cons, h₁, h₂]
      exact ih
    · simp only [List.filterMap_cons, h₁, h₂, Ptr.load, ih]
      obtain ⟨-, hscore, -, hcell⟩ := hr
      simp only at hscore hcell
      rw [hcell]
      simp only [hscore]

theorem Ptr.valid_append {R : Type} (heap extra : Ptr.Heap R) (s : Ptr.Store)
    (hv : Ptr.Store.Valid heap s) : Ptr.Store.Valid (heap ++ extra) s := by
  intro e he n hn
  have := hv e he n hn
  simp only [List.length_append]
  omega

/-- Cells added behind the heap do not change the store of values. -/
theorem Ptr.deref_append {R : Type} (heap extra : Ptr.Heap R) (s : Ptr.Store)
    (hv : Ptr.Store.Valid heap s) :
    Ptr.Store.deref (heap ++ extra) s = Ptr.Store.deref heap s := by
  unfold Ptr.Store.deref
  congr 1
  apply List.map_congr_left
  intro e he
  congr 1
  apply List.filterMap_congr
  intro n hn
  rw [List.getElem?_append_left (hv e he n hn)]

/-- The row of a group computed on pointers is the row computed on values, and
the heap is only extended. -/
theorem Ptr.row_refines {R : Type} (L : Lib R) (s : Ptr.Store) (pType pf : List Char)
    (heap : Ptr.Heap R) (group : APIGroup) (hv : Ptr.Store.Valid heap s) :
    ∃ extra, Ptr.row L s pType pf heap group =
      some (heap ++ extra, Store.PrintGroupData.row L (Ptr.Store.deref heap s) pType pf group) := by
  unfold Ptr.row Store.PrintGroupData.row
  simp only
  by_cases h0 : group.Rips.length = 0
  · simp only [h0, if_true]
    by_cases hpf : pf = PFCsv
    · exact ⟨[], by simp [hpf]⟩
    · exact ⟨[], by simp [hpf]⟩
  · simp only [h0, if_false]
    have hsim0 : Ptr.Sim heap ⟨heap, [], []⟩ (⟨[], []⟩ : CollectBandLog.SumState R) :=
      ⟨⟨[], by simp⟩, rfl, List.Forall₂.nil, List.nodup_nil⟩
    obtain ⟨pst, hrun, ⟨extra, hheap⟩, htp, hrep, -⟩ :=
      Ptr.sim_rips L heap s hv group.Rips _ _ hsim0
    refine ⟨extra, ?_⟩
    simp only [hrun, Ptr.genBandDataStringByValues]
    rw [Ptr.load_values heap pst.heap _ _ hrep pst.sumTimePoints]
    simp only [htp, hheap, Store.PrintGroupData.values]

/-- The outer loop on pointers computes the names and rows of the outer loop
on values, and the heap is only extended. -/
theorem Ptr.collect_refines {R : Type} (L : Lib R) (s : Ptr.Store) (pType pf : List Char)
    (S : CollectBandLog.Store R) (groups : List APIGroup) (heap : Ptr.Heap R)
    (names : List (List Char)) (rows : List (List Char × List Char))
    (hv : Ptr.Store.Valid heap s) (hS : Ptr.Store.deref heap s = S) :
    ∃ extra, Ptr.collect L s pType pf ⟨heap, names, rows⟩ groups =
      some ⟨heap ++ extra,
        (groups.foldl
          (fun acc group =>
            (acc.1 ++ [(Store.PrintGroupData.row L S pType pf group).1],
              GoMap.set acc.2 (Store.PrintGroupData.row L S pType pf group).1
                (Store.PrintGroupData.row L S pType pf group).2))
          (names, rows)).1,
        (groups.foldl
          (fun acc group =>
            (acc.1 ++ [(Store.PrintGroupData.row L S pType pf group).1],
              GoMap.set acc.2 (Store.PrintGroupData.row L S pType pf group).1
                (Store.PrintGroupData.row L S pType pf group).2))
          (names, rows)).2⟩ := by
  induction groups generalizing heap names rows with
  | nil => exact ⟨[], by simp [Ptr.collect, Ptr.loop]⟩
  | cons g groups ih =>
    obtain ⟨e₁, h₁⟩ := Ptr.row_refines L s pType pf heap g hv
    rw [hS] at h₁
    obtain ⟨e₂, h₂⟩ := ih (heap ++ e₁)
      (names ++ [(Store.PrintGroupData.row L S pType pf g).1])
      (GoMap.set rows (Store.PrintGroupData.row L S pType pf g).1
        (Store.PrintGroupData.row L S pType pf g).2)
      (Ptr.valid_append heap e₁ s hv) (by rw [Ptr.deref_append heap e₁ s hv]; exact hS)
    refine ⟨e₁ ++ e₂, ?_⟩
    unfold Ptr.collect at h₂ ⊢
    simp only [Ptr.loop, h₁, List.foldl_cons]
    rw [h₂, List.append_assoc]

/-- The method on pointers writes what the method on values writes, panics when
it panics, and only extends the heap. -/
theorem Ptr.PrintGroupData_refines {R : Type} (L : Lib R) (s : Ptr.Store) (heap : Ptr.Heap R)
    (groups : Option APIGroupIpsRes) (pType pf : List Char) (hv : Ptr.Store.Valid heap s) :
    ∃ extra, Ptr.PrintGroupData L s heap groups pType pf =
      (Store.PrintGroupData L (Ptr.Store.deref heap s) groups pType pf).map
        (fun out => (heap ++ extra, out)) := by
  unfold Ptr.PrintGroupData Store.PrintGroupData
  cases groups with
  | none => exact ⟨[], rfl⟩
  | some groups =>
    by_cases hc : groups.base.Code ≠ 200
    · exact ⟨[], by simp [hc]⟩
    · by_cases hl : groups.Data.length = 0
      · exact ⟨[], by simp [hc, hl]⟩
      · obtain ⟨extra, he⟩ := Ptr.collect_refines L s pType pf (Ptr.Store.deref heap s)
          groups.Data heap [] [] hv rfl
        refine ⟨extra, ?_⟩
        simp only [hc, hl, if_false, he, Option.map_some']
        rfl

/-- C10: `Store.PrintGroupData` leaves the stored samples as they are: run on a
heap in which every pointer of the store is valid, it only adds cells behind
the heap (the copies it accumulates into), so every stored sample has the
fields it had before; it writes what the aggregation on values writes, and does
write when the directory response has status 200 and a group; and run again on
the heap it left, over the same store and directory response, it writes the
same lines. -/
theorem report_is_read_only {R : Type} (L : Lib R) (s : Ptr.Store) (heap : Ptr.Heap R)
    (groups : Option APIGroupIpsRes) (pType pf : List Char) (hv : Ptr.Store.Valid heap s) :
    ∃ extra : Ptr.Heap R,
      Ptr.PrintGroupData L s heap groups pType pf =
          (Store.PrintGroupData L (Ptr.Store.deref heap s) groups pType pf).map
            (fun out => (heap ++ extra, out)) ∧
        (∀ g : APIGroupIpsRes, groups = some g → g.base.Code = 200 → g.Data ≠ [] →
          ∃ out, Ptr.PrintGroupData L s heap groups pType pf = some (heap ++ extra, out)) ∧
        (∀ e ∈ s.data, ∀ n ∈ e.2, (heap ++ extra)[n.Data]? = heap[n.Data]?) ∧
        (Ptr.PrintGroupData L s (heap ++ extra) groups pType pf).map Prod.snd =
          (Ptr.PrintGroupData L s heap groups pType pf).map Prod.snd := by
  obtain ⟨extra, h₁⟩ := Ptr.PrintGroupData_refines L s heap groups pType pf hv
  obtain ⟨extra', h₂⟩ := Ptr.PrintGroupData_refines L s (heap ++ extra) groups pType pf
    (Ptr.valid_append heap extra s hv)
  rw [Ptr.deref_append heap extra s hv] at h₂
  refine ⟨extra, h₁, ?_, ?_, ?_⟩
  · intro g hg hcode hdata
    subst hg
    obtain ⟨out, hout⟩ :=
      PrintGroupData_returns L (Ptr.Store.deref heap s) g pType pf hcode hdata
    exact ⟨out, by rw [h₁, hout]; rfl⟩
  · intro e he n hn
    exact List.getElem?_append_left (hv e he n hn)
  · rw [h₁, h₂, Option.map_map, Option.map_map]
    rfl

theorem report_is_read_only_witness :
    Ptr.Store.Valid Ptr.exampleHeap Ptr.exampleStore ∧
      Ptr.PrintGroupData demo.lib Ptr.exampleStore Ptr.exampleHeap (some Ptr.exampleGroups)
          TypeIn PFCsv =
        some (Ptr.exampleHeap ++
            [⟨"A".toList, 1, 0, 3000, 300, 0, ⟨100⟩⟩, ⟨"B".toList, 2, 0, 500, 700, 0, ⟨101⟩⟩],
          ["-------- group band data(in) --------".toList, "e(idc),norip".toList,
            "g(idc),01/01T00:01:40-01/01T00:01:41,30.00,5.00".toList]) ∧
      ∃ extra : Ptr.Heap Int,
        Ptr.PrintGroupData demo.lib Ptr.exampleStore Ptr.exampleHeap (some Ptr.exampleGroups)
            TypeIn PFCsv =
          (Store.PrintGroupData demo.lib (Ptr.Store.deref Ptr.exampleHeap Ptr.exampleStore)
            (some Ptr.exampleGroups) TypeIn PFCsv).map
            (fun out => (Ptr.exampleHeap ++ extra, out)) ∧
        (∀ g : APIGroupIpsRes, some Ptr.exampleGroups = some g → g.base.Code = 200 →
          g.Data ≠ [] →
          ∃ out, Ptr.PrintGroupData demo.lib Ptr.exampleStore Ptr.exampleHeap
            (some Ptr.exampleGroups) TypeIn PFCsv = some (Ptr.exampleHeap ++ extra, out)) ∧
        (∀ e ∈ Ptr.exampleStore.data, ∀ n ∈ e.2,
          (Ptr.exampleHeap ++ extra)[n.Data]? = Ptr.exampleHeap[n.Data]?) ∧
        (Ptr.PrintGroupData demo.lib Ptr.exampleStore (Ptr.exampleHeap ++ extra)
            (some Ptr.exampleGroups) TypeIn PFCsv).map Prod.snd =
          (Ptr.PrintGroupData demo.lib Ptr.exampleStore Ptr.exampleHeap
            (some Ptr.exampleGroups) TypeIn PFCsv).map Prod.snd :=
  ⟨by unfold Ptr.Store.Valid; decide, by decide,
    report_is_read_only demo.lib Ptr.exampleStore Ptr.exampleHeap (some Ptr.exampleGroups)
      TypeIn PFCsv (by unfold Ptr.Store.Valid; decide)⟩

end CollectBandLog
